import Mathlib

/-!
# pop: placeholder translation, clause accumulation and the PostgreSQL dialect

A shallow embedding of `postgresql.go`, `query_groups.go` and `query_having.go`. What these
files call but the sources do not hold (`ToSQL`, `Where`, `Select`, `Paginate`, `RawQuery`,
the `columns` package, the belongs-to preload) is modelled from the specification and marked
so at each definition.

Conventions of the embedding:

* a Go `string` is its sequence of bytes, a byte being a natural number below 256
  (`'?'` is 63, `'$'` is 36, `'0'` is 48); every theorem quantified over `GoString`
  holds for all lists and so for all byte strings;
* a Go `map[string]string` is a partial function from keys to values;
* methods on a pointer receiver take the receiver's state and return the new state;
* `p.mu` only serialises callers, so the sequential model has no field for it;
* `curr` in `TranslateSQL` is a Go `int`; it never exceeds `len(sql) + 1`, which an
  `int` always holds, so it is modelled as a natural number.
-/

namespace Pop

/-! ## Strings -/

/-- A Go string: the list of its bytes. -/
abbrev GoString := List Nat

/-- The UTF-8 bytes of a string literal. -/
def bytes (s : String) : GoString := s.toUTF8.data.toList.map UInt8.toNat

/-- Digit loop behind `strconv.Itoa` for a non-negative argument: the least
significant digit is produced first and pushed in front of the digits made so far. -/
def itoaLoop : Nat → Nat → GoString → GoString
  | 0, _, acc => acc
  | fuel + 1, n, acc =>
    if n / 10 = 0 then (48 + n % 10) :: acc
    else itoaLoop fuel (n / 10) ((48 + n % 10) :: acc)

/-- The Go standard library's `strconv.Itoa` on a non-negative `int`: the decimal digits
of `n` as ASCII bytes, most significant first, `"0"` for zero. -/
def Itoa (n : Nat) : GoString := itoaLoop (n + 1) n []

/-- The decimal text of a Go `int` as `%d` and `strconv.Itoa` give it: a minus sign before
the digits of a negative number. -/
def ItoaInt (i : Int) : GoString := if i < 0 then 45 :: Itoa i.natAbs else Itoa i.toNat

/-- The value a Go `int` (64 bits, two's complement) holds after an arithmetic operation
whose mathematical result is `x`. -/
def wrapInt (x : Int) : Int :=
  (x + 9223372036854775808) % 18446744073709551616 - 9223372036854775808

/-- Decimal representation as the spec words it, through the positional digits of `k`. -/
def decimal (k : Nat) : GoString :=
  if k = 0 then [48] else (Nat.digits 10 k).reverse.map (48 + ·)

/-! ## The PostgreSQL dialect (`postgresql.go`) -/

/-- Modelled from the spec: the declaration of `ConnectionDetails` is not in src; these are
the fields `postgresql.go` reads from it. -/
structure ConnectionDetails where
  URL : GoString
  Host : GoString
  Port : GoString
  User : GoString
  Password : GoString
  Database : GoString
deriving DecidableEq, Repr

/-- The `postgresql` struct. -/
structure postgresql where
  translateCache : GoString → Option GoString
  ConnectionDetails : ConnectionDetails

/-- `postgresql.Details`. -/
def postgresql.Details (p : postgresql) : Pop.ConnectionDetails := p.ConnectionDetails

/-- `newPostgreSQL`: the details are parsed with the default port and the cache starts as
the empty map. `Parse` (not in src) is a parameter. -/
def newPostgreSQL (Parse : GoString → ConnectionDetails → ConnectionDetails)
    (deets : ConnectionDetails) : postgresql :=
  { ConnectionDetails := Parse (bytes "5432") deets
    translateCache := fun _ => none }

/-- The inner loop of `TranslateSQL`: `for _, char := range str { out = append(out, byte(char)) }`. -/
def appendRunes (out : GoString) (str : GoString) : GoString :=
  str.foldl (fun o char => o ++ [char % 256]) out

/-- The scanning loop of `TranslateSQL` over the bytes `sql[i:]` still to read, with the
current placeholder number `curr` and the output built so far. -/
def translateLoop : GoString → Nat → GoString → GoString
  | [], _, out => out
  | c :: rest, curr, out =>
    if c = 63 then translateLoop rest (curr + 1) (appendRunes out (36 :: Itoa curr))
    else translateLoop rest curr (out ++ [c])

/-- The cache-free part of `TranslateSQL` (lines 99 to 112). -/
def translateScan (sql : GoString) : GoString := translateLoop sql 1 []

/-- `postgresql.TranslateSQL`: the returned string and the dialect after the call. -/
def postgresql.TranslateSQL (p : postgresql) (sql : GoString) : GoString × postgresql :=
  match p.translateCache sql with
  | some csql => (csql, p)
  | none =>
    let csql := translateScan sql
    (csql, { p with translateCache := fun k => if k = sql then some csql else p.translateCache k })

/-- The dialect after a sequence of `TranslateSQL` calls, oldest first. -/
def postgresql.afterCalls (p : postgresql) (calls : List GoString) : postgresql :=
  calls.foldl (fun st sql => (st.TranslateSQL sql).2) p

/-- The spec's words for placeholder translation: byte `i` of `s` is kept unless it is `'?'`,
and a `'?'` becomes `'$'` followed by the decimal representation of its rank `k`, the number
of `'?'` bytes among the first `i + 1` bytes. -/
def placeholderSpec (s : GoString) : GoString :=
  (List.range s.length).flatMap fun i =>
    if s.getD i 0 = 63 then 36 :: decimal ((s.take (i + 1)).count 63) else [s.getD i 0]

/-- Placeholder translation of `rest` when `pre` placeholders came before it. -/
def specFrom (pre : Nat) (rest : GoString) : GoString :=
  (List.range rest.length).flatMap fun i =>
    if rest.getD i 0 = 63 then 36 :: decimal (pre + (rest.take (i + 1)).count 63)
    else [rest.getD i 0]

/-- The cache holds only translations: every entry maps its key to the scan of that key. -/
def postgresql.CacheSound (p : postgresql) : Prop :=
  ∀ k v, p.translateCache k = some v → v = translateScan k

/-! ## Columns (package `columns`, used by `Create`) -/

/-- Modelled from the spec: the `columns` package is not in src. A column is
`{name, writeable, readable}` (§3); `SelectSQL` is the select expression that overrides the
default rendering of the column, as `name as full_name` does in `Test_ToSQL`
(`query_test.go:269`), `none` when the column has no override. -/
structure Column where
  Name : GoString
  Writeable : Bool
  Readable : Bool
  SelectSQL : Option GoString
deriving DecidableEq, Repr

/-- Modelled from the spec: how a column is rendered in a SELECT list: its select override
verbatim when it has one, else its name qualified by the alias (`users.alive`, `u.alive`). -/
def Column.selectExpr (tableAlias : GoString) (c : Column) : GoString :=
  match c.SelectSQL with
  | some e => e
  | none => tableAlias ++ 46 :: c.Name

/-- Modelled from the spec: the `Columns` type is not in src; it is the set of columns of a
model, held here as a list. -/
abbrev Columns := List Column

/-- Modelled from the spec: `Columns.Remove` is not in src; it takes the columns of the given
name out of the set. -/
def Columns.Remove (cols : Columns) (name : GoString) : Columns :=
  cols.filter fun c => !decide (c.Name = name)

/-- Modelled from the spec: `Columns.Writeable` is not in src; it keeps the writeable columns. -/
def Columns.Writeable (cols : Columns) : Columns :=
  cols.filter fun c => c.Writeable

/-- Modelled from the spec: `Columns.Readable` is not in src; it keeps the readable columns. -/
def Columns.Readable (cols : Columns) : Columns :=
  cols.filter fun c => c.Readable

/-- Bytewise order of Go strings, `a <= b`. -/
def strLe : GoString → GoString → Bool
  | [], _ => true
  | _ :: _, [] => false
  | a :: as, b :: bs => if a < b then true else if b < a then false else strLe as bs

/-- Insertion of a string into a sorted list of strings. -/
def insertSorted (x : GoString) : List GoString → List GoString
  | [] => [x]
  | y :: ys => if strLe x y then x :: y :: ys else y :: insertSorted x ys

/-- The Go standard library's `sort.Strings`: the strings in increasing bytewise order,
computed by insertion. -/
def sortStrings : List GoString → List GoString
  | [] => []
  | x :: xs => insertSorted x (sortStrings xs)

/-- The Go standard library's `strings.Join`. -/
def join : List GoString → GoString → GoString
  | [], _ => []
  | [x], _ => x
  | x :: y :: ys, sep => x ++ sep ++ join (y :: ys) sep

/-- The names that `Columns.String` lists: the column names in alphabetical order. -/
def Columns.names (cols : Columns) : List GoString := sortStrings (cols.map (·.Name))

/-- Modelled from the spec: `Columns.String` is not in src; the names, alphabetically
normalised, joined by `", "`. -/
def Columns.String (cols : Columns) : GoString := join cols.names (bytes ", ")

/-- Modelled from the spec: `Columns.SymbolizedString` is not in src; the same names, each
as the named parameter `:name`, joined by `", "`. -/
def Columns.SymbolizedString (cols : Columns) : GoString :=
  join (cols.names.map fun n => 58 :: n) (bytes ", ")

/-! ## Model and store (collaborators of `Create`) -/

/-- Modelled from the spec: the `Model` type is not in src. `Value` is the wrapped record,
`ID` its generated primary key (the field `setID` writes), `TableName` and `As` the table
name and alias, `Columns` the columns reflected from the record. -/
structure Model (V : Type) where
  Value : V
  ID : Int
  TableName : GoString
  As : GoString
  Columns : Columns

/-- Modelled from the spec: `Model.setID` is not in src; it stores the generated key. -/
def Model.setID {V : Type} (m : Model V) (i : Int) : Model V := { m with ID := i }

/-- The `store` collaborator as `Create` uses it: `PrepareNamed` gives a statement or an
error, and `Get` runs a statement on the record and decodes the `id` column or fails. -/
structure store (ε Stmt V : Type) where
  PrepareNamed : GoString → Except ε Stmt
  Get : Stmt → V → Except ε Int

/-- Calls that `Create` makes on the store, in order. -/
inductive StoreCall (Stmt : Type) where
  | prepareNamed (query : GoString)
  | get (stmt : Stmt)
deriving DecidableEq, Repr

/-- What a call of `Create` leaves behind: the returned error (`none` is `nil`), the model,
the lines passed to `Log` and the calls made on the store. -/
structure CreateResult (ε Stmt V : Type) where
  err : Option ε
  model : Model V
  logged : List GoString
  calls : List (StoreCall Stmt)

/-- The columns `Create` writes: `cols.Remove("id")` then `cols.Writeable()`. -/
def postgresql.createColumns (cols : Columns) : Columns :=
  (Columns.Remove cols (bytes "id")).Writeable

/-- The statement text `Create` builds with `fmt.Sprintf`. -/
def postgresql.createQuery {V : Type} (model : Model V) (cols : Columns) : GoString :=
  let w := postgresql.createColumns cols
  bytes "INSERT INTO " ++ model.TableName ++ bytes " (" ++ Columns.String w ++
    bytes ") VALUES (" ++ Columns.SymbolizedString w ++ bytes ") returning id"

/-- `postgresql.Create`. -/
def postgresql.Create {ε Stmt V : Type} (_p : postgresql) (s : store ε Stmt V)
    (model : Model V) (cols : Columns) : CreateResult ε Stmt V :=
  let query := postgresql.createQuery model cols
  match s.PrepareNamed query with
  | .error err =>
    { err := some err, model := model, logged := [query], calls := [.prepareNamed query] }
  | .ok stmt =>
    match s.Get stmt model.Value with
    | .ok id =>
      { err := none, model := model.setID id, logged := [query],
        calls := [.prepareNamed query, .get stmt] }
    | .error err =>
      { err := some err, model := model, logged := [query],
        calls := [.prepareNamed query, .get stmt] }

/-! ## Query clauses (`query_groups.go`, `query_having.go`) -/

/-- Modelled from the spec: `clause` (the type of `Query.RawSQL` and of the where and order
clauses) is not in src: a fragment and its arguments. -/
structure clause (α : Type) where
  Fragment : GoString
  Arguments : List α
deriving DecidableEq, Repr

/-- `GroupClause`, built in `GroupBy` as `GroupClause{field}`. -/
structure GroupClause where
  Field : GoString
deriving DecidableEq, Repr

/-- `HavingClause`, built in `Having` as `HavingClause{condition, args}`. -/
structure HavingClause (α : Type) where
  Condition : GoString
  Arguments : List α
deriving DecidableEq, Repr

/-- Modelled from the spec: `JoinClause{target, onCondition, args}` (§3) is not in src. -/
structure JoinClause (α : Type) where
  Table : GoString
  On : GoString
  Arguments : List α
deriving DecidableEq, Repr

/-- Modelled from the spec: `LimitOffset` (§3) is not in src. The two numbers are Go `int`s,
as the fields of `Paginator` are (`finders_test.go:802-803`). -/
structure LimitOffset where
  Limit : Option Int
  Offset : Option Int
deriving DecidableEq, Repr

/-- Modelled from the spec: the `Query` struct is not in src; its clause lists are the ones
of §3, with the field names `query_groups.go` and `query_having.go` use; `addColumns` holds
the explicit column selections of §4.3. `α` is the type of bound arguments (`interface{}` in
Go). -/
structure Query (α : Type) where
  RawSQL : clause α
  whereClauses : List (clause α)
  orderClauses : List (clause α)
  joinClauses : List (JoinClause α)
  groupClauses : List GroupClause
  havingClauses : List (HavingClause α)
  limitOffset : LimitOffset
  addColumns : List GoString
deriving DecidableEq, Repr

/-- Levels of the `logging` package that the clause methods use. -/
inductive Level where
  | Debug | Info | Warn | Error
deriving DecidableEq, Repr

/-- One call of `log`: the level and the message. -/
structure LogEntry where
  lvl : Level
  s : GoString
deriving DecidableEq, Repr

/-- A query with no clause and no raw SQL, as `Q` gives it. -/
def Query.empty (α : Type) : Query α :=
  { RawSQL := ⟨[], []⟩, whereClauses := [], orderClauses := [], joinClauses := [],
    groupClauses := [], havingClauses := [], limitOffset := ⟨none, none⟩, addColumns := [] }

/-- The loop of `GroupBy`: `for i := range fields { append(q.groupClauses, GroupClause{fields[i]}) }`. -/
def appendGroupClauses (gs : List GroupClause) (fields : List GoString) : List GroupClause :=
  fields.foldl (fun acc f => acc ++ [GroupClause.mk f]) gs

/-- `Query.GroupBy`: the query after the call (the returned pointer is the receiver) and the
diagnostics it logged. -/
def Query.GroupBy {α : Type} (q : Query α) (field : GoString) (fields : List GoString) :
    Query α × List LogEntry :=
  if q.RawSQL.Fragment ≠ [] then
    (q, [⟨Level.Warn, bytes "Query is setup to use raw SQL"⟩])
  else
    let q1 := { q with groupClauses := q.groupClauses ++ [GroupClause.mk field] }
    if fields.length > 0 then
      ({ q1 with groupClauses := appendGroupClauses q1.groupClauses fields }, [])
    else (q1, [])

/-- `Query.Having`: the query after the call (the returned pointer is the receiver) and the
diagnostics it logged. -/
def Query.Having {α : Type} (q : Query α) (condition : GoString) (args : List α) :
    Query α × List LogEntry :=
  if q.RawSQL.Fragment ≠ [] then
    (q, [⟨Level.Warn, bytes "Query is setup to use raw SQL"⟩])
  else
    ({ q with havingClauses := q.havingClauses ++ [HavingClause.mk condition args] }, [])

/-! ## Rendering (`ToSQL`) -/

/-- Values bound as arguments in the repository's tests: integers and strings. -/
inductive GoValue where
  | int (i : Int)
  | str (s : GoString)
deriving DecidableEq, Repr

/-- Modelled from the spec: the rendering of a join clause is not in src; the tests show
`JOIN <target> ON <onCondition>`. -/
def JoinClause.String {α : Type} (c : JoinClause α) : GoString :=
  bytes "JOIN " ++ c.Table ++ bytes " ON " ++ c.On

/-- Modelled from the spec: `SELECT <columns> FROM <table> AS <alias>` (§4.3), the columns
being every readable column as it is rendered, alphabetically sorted. -/
def selectHead {V : Type} (m : Model V) : GoString :=
  bytes "SELECT " ++
    join (sortStrings (m.Columns.Readable.map (Column.selectExpr m.As))) (bytes ", ") ++
    bytes " FROM " ++ m.TableName ++ bytes " AS " ++ m.As

/-- White space as `strings.TrimSpace` sees it in ASCII: space, tab, line feed, vertical tab,
form feed, carriage return. -/
def isSpace (b : Nat) : Bool := b == 32 || b == 9 || b == 10 || b == 11 || b == 12 || b == 13

/-- A blank selection: nothing but white space. -/
def isBlank (s : GoString) : Bool := s.all isSpace

/-- The string without its leading white space. -/
def dropSpaces : GoString → GoString
  | [] => []
  | b :: r => if isSpace b then dropSpaces r else b :: r

/-- An ASCII decimal digit. -/
def isDigit (b : Nat) : Bool := decide (48 ≤ b) && decide (b ≤ 57)

/-- The ASCII lower-case form of a byte. -/
def toLower (b : Nat) : Nat := if 65 ≤ b ∧ b ≤ 90 then b + 32 else b

/-- Whether the string starts with the lower-case pattern, ASCII case ignored. -/
def startsWithFold : GoString → GoString → Bool
  | [], _ => true
  | _ :: _, [] => false
  | c :: cs, b :: bs => (toLower b == c) && startsWithFold cs bs

/-- The string without its leading digits. -/
def dropDigits : GoString → GoString
  | [] => []
  | b :: r => if isDigit b then dropDigits r else b :: r

/-- The string without one leading white-space byte, if it has one. -/
def dropOneSpace : GoString → GoString
  | [] => []
  | b :: r => if isSpace b then r else b :: r

/-- Whether a text, given reversed, ends in white space, the keyword, white space and a
number: `... limit 2`, `... offset\t1`. -/
def endsWithKeywordNumber (kw : GoString) (rs : GoString) : Bool :=
  decide ((dropSpaces (dropDigits rs)).length < (dropDigits rs).length) &&
    startsWithFold kw.reverse (dropSpaces (dropDigits rs)) &&
    (match (dropSpaces (dropDigits rs)).drop kw.length with
      | b :: _ => isSpace b
      | [] => false)

/-- Whether a text, given reversed, ends in a `limit` with two numbers: `... limit 2,1`,
`... limit 2 , 1`. -/
def endsWithLimitPair (rs : GoString) : Bool :=
  match dropOneSpace (dropDigits rs) with
  | 44 :: r => endsWithKeywordNumber (bytes "limit") (dropOneSpace r)
  | _ => false

/-- Whether a text holds `rows only` after white space, ASCII case ignored. -/
def containsRowsOnly : GoString → Bool
  | [] => false
  | b :: r => (isSpace b && startsWithFold (bytes "rows only") r) || containsRowsOnly r

/-- Modelled from the spec: whether a raw SQL text already carries its own trailing
LIMIT/OFFSET clause, white space and newlines around the numbers allowed (§4.3; the raw
queries of `finders_test.go:820-870`). -/
def hasLimitOrOffset (sql : GoString) : Bool :=
  endsWithKeywordNumber (bytes "limit") (dropSpaces sql.reverse) ||
    endsWithLimitPair (dropSpaces sql.reverse) ||
    endsWithKeywordNumber (bytes "offset") (dropSpaces sql.reverse) ||
    containsRowsOnly sql

/-- Modelled from the spec: `Query.Select` is not in src; it records explicit plain column
selections, ignoring blank entries (`Test_Select`). The `r` and `w` markers of §4.3 are not
modelled. -/
def Query.Select {α : Type} (q : Query α) (fields : List GoString) : Query α :=
  { q with addColumns := q.addColumns ++ fields.filter fun f => !isBlank f }

/-- Modelled from the spec: the column list of the SELECT head (§4.3). Without explicit
selection it is every readable column of the model, each rendered as its select override or
its alias-qualified name, in alphabetical order of the rendered text; explicit plain
selections are kept verbatim, deduplicated by their rendered output and sorted
alphabetically. -/
def Query.selectColumns {α V : Type} (q : Query α) (m : Model V) : List GoString :=
  if q.addColumns.isEmpty then
    sortStrings (m.Columns.Readable.map (Column.selectExpr m.As))
  else sortStrings q.addColumns.dedup

/-- Modelled from the spec: `SELECT <columns> FROM <table> AS <alias>` (§4.3) for a query. -/
def Query.headSQL {α V : Type} (q : Query α) (m : Model V) : GoString :=
  bytes "SELECT " ++ join (q.selectColumns m) (bytes ", ") ++
    bytes " FROM " ++ m.TableName ++ bytes " AS " ++ m.As

/-- Modelled from the spec: the `[JOIN ...]` part (§4.3). -/
def renderJoins {α : Type} (js : List (JoinClause α)) : GoString :=
  if js.isEmpty then [] else bytes " " ++ join (js.map JoinClause.String) (bytes " ")

/-- Modelled from the spec: the `[WHERE ...]` part, fragments concatenated with `AND` (§4.3). -/
def renderWheres {α : Type} (ws : List (clause α)) : GoString :=
  if ws.isEmpty then [] else bytes " WHERE " ++ join (ws.map (·.Fragment)) (bytes " AND ")

/-- Modelled from the spec: the `[GROUP BY ...]` part (§4.3). -/
def renderGroups (gs : List GroupClause) : GoString :=
  if gs.isEmpty then [] else bytes " GROUP BY " ++ join (gs.map (·.Field)) (bytes ", ")

/-- Modelled from the spec: the `[HAVING ...]` part (§4.3). -/
def renderHavings {α : Type} (hs : List (HavingClause α)) : GoString :=
  if hs.isEmpty then [] else bytes " HAVING " ++ join (hs.map (·.Condition)) (bytes " AND ")

/-- Modelled from the spec: the `[ORDER BY ...]` part (§4.3). -/
def renderOrders {α : Type} (os : List (clause α)) : GoString :=
  if os.isEmpty then [] else bytes " ORDER BY " ++ join (os.map (·.Fragment)) (bytes ", ")

/-- Modelled from the spec: the `[LIMIT ...] [OFFSET ...]` part (§4.3). -/
def renderLimitOffset (lo : LimitOffset) : GoString :=
  (match lo.Limit with
    | some n => bytes " LIMIT " ++ ItoaInt n
    | none => []) ++
  (match lo.Offset with
    | some n => bytes " OFFSET " ++ ItoaInt n
    | none => [])

/-- Modelled from the spec: what follows the WHERE part in the fixed rendering order. -/
def Query.tailSQL {α : Type} (q : Query α) : GoString :=
  renderGroups q.groupClauses ++ renderHavings q.havingClauses ++
    renderOrders q.orderClauses ++ renderLimitOffset q.limitOffset

/-- Modelled from the spec: the structured SQL text before dialect translation, in the fixed
order `SELECT .. FROM .. AS .. [JOIN] [WHERE] [GROUP BY] [HAVING] [ORDER BY] [LIMIT] [OFFSET]`. -/
def Query.structuredSQL {α V : Type} (q : Query α) (m : Model V) : GoString :=
  q.headSQL m ++ renderJoins q.joinClauses ++ renderWheres q.whereClauses ++ q.tailSQL

/-- Arguments of the join clauses, in clause order. -/
def Query.joinArgs {α : Type} (q : Query α) : List α := q.joinClauses.flatMap (·.Arguments)

/-- Arguments of the where clauses, in clause order. -/
def Query.whereArgs {α : Type} (q : Query α) : List α := q.whereClauses.flatMap (·.Arguments)

/-- Arguments of the clauses rendered after the WHERE part, in rendering order. -/
def Query.tailArgs {α : Type} (q : Query α) : List α :=
  q.havingClauses.flatMap (·.Arguments) ++ q.orderClauses.flatMap (·.Arguments)

/-- Modelled from the spec: the argument list of a structured query follows the order in
which the placeholders appear in the text, join arguments first (§4.3). -/
def Query.structuredArgs {α : Type} (q : Query α) : List α :=
  q.joinArgs ++ q.whereArgs ++ q.tailArgs

/-- Modelled from the spec: the text of a raw query before translation. The raw SQL is
kept as it is, and a paginated raw query is rewritten with its `LIMIT`/`OFFSET` at the end
(§4.3, `finders_test.go:800-806`) unless the raw SQL carries its own
(`finders_test.go:820-870`). -/
def Query.rawText {α : Type} (q : Query α) : GoString :=
  if hasLimitOrOffset q.RawSQL.Fragment then q.RawSQL.Fragment
  else q.RawSQL.Fragment ++ renderLimitOffset q.limitOffset

/-- Modelled from the spec: `Query.ToSQL` is not in src. A raw query renders its raw SQL and
arguments, with no structured clause; a structured one renders its clauses in the fixed
order; the text goes through the dialect's `TranslateSQL`. Returns the SQL, the arguments
and the dialect after the call. -/
def Query.ToSQL {α V : Type} (q : Query α) (p : postgresql) (m : Model V) :
    (GoString × List α) × postgresql :=
  if q.RawSQL.Fragment ≠ [] then
    let r := p.TranslateSQL q.rawText
    ((r.1, q.RawSQL.Arguments), r.2)
  else
    let r := p.TranslateSQL (q.structuredSQL m)
    ((r.1, q.structuredArgs), r.2)

/-- Each join clause binds as many arguments as its condition has placeholders, and its
target has none. -/
def JoinClause.Balanced {α : Type} (c : JoinClause α) : Prop :=
  c.Table.count 63 = 0 ∧ c.On.count 63 = c.Arguments.length

/-- A where clause binds as many arguments as its fragment has placeholders. -/
def clause.Balanced {α : Type} (c : clause α) : Prop :=
  c.Fragment.count 63 = c.Arguments.length

instance {α : Type} (c : JoinClause α) : Decidable c.Balanced := by
  unfold JoinClause.Balanced; infer_instance

instance {α : Type} (c : clause α) : Decidable c.Balanced := by
  unfold clause.Balanced; infer_instance

/-! ## Builders that are not in src (`RawQuery`, `Paginate`) -/

/-- Modelled from the spec: `RawQuery(sql, args...)` is not in src; it sets the raw SQL
override of the query (§3, §4.3). -/
def Query.RawQuery {α : Type} (q : Query α) (stmt : GoString) (args : List α) : Query α :=
  { q with RawSQL := ⟨stmt, args⟩ }

/-- Modelled from the spec: `Paginate(page, perPage)` is not in src; it sets
`LIMIT perPage OFFSET (page-1)*perPage` (§4.3). `Paginator.Page` and `Paginator.PerPage` are
Go `int`s (`finders_test.go:802-803`), so the subtraction and the product are those of Go
`int` arithmetic. -/
def Query.Paginate {α : Type} (q : Query α) (page perPage : Int) : Query α :=
  { q with limitOffset := ⟨some perPage, some (wrapInt (wrapInt (page - 1) * perPage))⟩ }

/-! ## `Where` and placeholder expansion (not in src) -/

/-- An argument as `Where` receives it: one value, or a slice of values. -/
inductive Arg (α : Type) where
  | one (a : α)
  | slice (xs : List α)
deriving DecidableEq, Repr

/-- The values an argument contributes to the flattened argument list. -/
def Arg.values {α : Type} : Arg α → List α
  | .one a => [a]
  | .slice xs => xs

/-- The shape of an argument: `none` for a single value, the length for a slice. -/
def Arg.shape {α : Type} : Arg α → Option Nat
  | .one _ => none
  | .slice xs => some xs.length

/-- Whether an argument is a slice. -/
def Arg.isSlice {α : Type} : Arg α → Bool
  | .one _ => false
  | .slice _ => true

/-- The text of `n` placeholders: `?, ?, ..., ?`. -/
def placeholders (n : Nat) : GoString := join (List.replicate n [63]) (bytes ", ")

/-- Modelled from the spec: recognition of an `IN (...)`-shaped group at the start of a
string: `in` in either case, then `(`, `?`, `)` with optional white space around them; the
result is what follows the group. -/
def matchInGroup : GoString → Option GoString
  | i :: n :: r =>
    if (i = 105 ∨ i = 73) ∧ (n = 110 ∨ n = 78) then
      match dropSpaces r with
      | 40 :: r1 =>
        match dropSpaces r1 with
        | 63 :: r2 =>
          match dropSpaces r2 with
          | 41 :: r3 => some r3
          | _ => none
        | _ => none
      | _ => none
    else none
  | _ => none

/-- Modelled from the spec: the single placeholder of the first `IN (...)`-shaped group
becomes `n` placeholders (§4.3). -/
def expandInGroup (n : Nat) : GoString → GoString
  | [] => []
  | b :: r =>
    match matchInGroup (b :: r) with
    | some rest => bytes "in (" ++ placeholders n ++ 41 :: rest
    | none => b :: expandInGroup n r

/-- Modelled from the spec: every placeholder bound to a slice argument becomes one
placeholder per element; the i-th placeholder is bound to the i-th argument (§4.3). -/
def expandSlices {α : Type} : GoString → List (Arg α) → GoString
  | [], _ => []
  | b :: r, [] => b :: r
  | b :: r, a :: as =>
    if b = 63 then
      match a with
      | .slice xs => placeholders xs.length ++ expandSlices r as
      | .one _ => 63 :: expandSlices r as
    else b :: expandSlices r (a :: as)

/-- Modelled from the spec: the fragment `Where` stores. With two or more positional
arguments the placeholder of an `IN (...)`-shaped group is repeated once per argument;
otherwise placeholders bound to slices are expanded (§4.3). -/
def whereFragment {α : Type} (fragment : GoString) (args : List (Arg α)) : GoString :=
  if 2 ≤ args.length ∧ args.all (fun a => !a.isSlice) = true then
    expandInGroup args.length fragment
  else expandSlices fragment args

/-- Modelled from the spec: `Query.Where` is not in src. On a raw query it warns and changes
nothing; otherwise it appends one where clause with the expanded fragment and the flattened
argument list (§4.3). -/
def Query.Where {α : Type} (q : Query α) (fragment : GoString) (args : List (Arg α)) :
    Query α × List LogEntry :=
  if q.RawSQL.Fragment ≠ [] then
    (q, [⟨Level.Warn, bytes "Query is setup to use raw SQL"⟩])
  else
    ({ q with whereClauses :=
        q.whereClauses ++ [⟨whereFragment fragment args, args.flatMap Arg.values⟩] }, [])

/-- The clause with every argument value replaced through `f`. -/
def clause.mapArgs {α β : Type} (f : α → β) (c : clause α) : clause β :=
  ⟨c.Fragment, c.Arguments.map f⟩

/-- The having clause with every argument value replaced through `f`. -/
def HavingClause.mapArgs {α β : Type} (f : α → β) (c : HavingClause α) : HavingClause β :=
  ⟨c.Condition, c.Arguments.map f⟩

/-- The join clause with every argument value replaced through `f`. -/
def JoinClause.mapArgs {α β : Type} (f : α → β) (c : JoinClause α) : JoinClause β :=
  ⟨c.Table, c.On, c.Arguments.map f⟩

/-- The query with every argument value replaced through `f`: same fragments, same numbers
of arguments, other values. -/
def Query.mapArgs {α β : Type} (f : α → β) (q : Query α) : Query β :=
  { RawSQL := q.RawSQL.mapArgs f
    whereClauses := q.whereClauses.map (clause.mapArgs f)
    orderClauses := q.orderClauses.map (clause.mapArgs f)
    joinClauses := q.joinClauses.map (JoinClause.mapArgs f)
    groupClauses := q.groupClauses
    havingClauses := q.havingClauses.map (HavingClause.mapArgs f)
    limitOffset := q.limitOffset
    addColumns := q.addColumns }

/-! ## Belongs-to preload (not in src) -/

/-- The association field of a root record: a pointer to the target record (`nil` is
`ptr none`) or the target held by value. -/
inductive AssocField (T : Type) where
  | ptr (p : Option T)
  | val (v : T)
deriving DecidableEq, Repr

/-- A root record as the belongs-to preload sees it: its foreign key (`none` when it is
null, a nil pointer or zero) and its association field. -/
structure BelongsToRoot (K T : Type) where
  ForeignKey : Option K
  Field : AssocField T
deriving DecidableEq, Repr

/-- Assignment of a loaded target to an association field, keeping its pointer or value
shape. -/
def AssocField.assign {T : Type} : AssocField T → T → AssocField T
  | .ptr _, t => .ptr (some t)
  | .val _, t => .val t

/-- Modelled from the spec: the distinct non-zero foreign-key values of the root set (§4.4,
step 3). -/
def belongsToKeys {K T : Type} [DecidableEq K] (roots : List (BelongsToRoot K T)) : List K :=
  (roots.filterMap (·.ForeignKey)).dedup

/-- Modelled from the spec: the one `WHERE id IN (...)` query against the target table
(§4.4, step 3); `id` gives the key of a target record. -/
def belongsToQuery {K T : Type} [DecidableEq K] (id : T → K) (table : List T)
    (keys : List K) : List T :=
  table.filter fun t => decide (id t ∈ keys)

/-- Modelled from the spec: mapping the results back by key onto one root; a root whose
foreign key is null, or matches no result, is left as it is (§4.4, step 3). -/
def assignBelongsTo {K T : Type} [DecidableEq K] (id : T → K) (found : List T)
    (r : BelongsToRoot K T) : BelongsToRoot K T :=
  match r.ForeignKey with
  | none => r
  | some k =>
    match found.find? fun t => decide (id t = k) with
    | some t => { r with Field := r.Field.assign t }
    | none => r

/-- Modelled from the spec: the belongs-to preload of a root set; the preload engine is not
in src (§4.4, step 3). -/
def preloadBelongsTo {K T : Type} [DecidableEq K] (id : T → K) (table : List T)
    (roots : List (BelongsToRoot K T)) : List (BelongsToRoot K T) :=
  roots.map (assignBelongsTo id (belongsToQuery id table (belongsToKeys roots)))

/-! ## Locking (`postgresql.Lock`, `p.mu`) -/

/-- The mutexes of a `postgresql` value: the struct has the single field `mu`. -/
inductive Mutex where
  | mu
deriving DecidableEq, Repr

/-- What a call does to the state a dialect shares between callers: its mutex and its
translation cache. -/
inductive DialectEvent where
  | lock (m : Mutex)
  | unlock (m : Mutex)
  | cacheRead (key : GoString)
  | cacheWrite (key : GoString) (value : GoString)
deriving DecidableEq, Repr

/-- The events of one `TranslateSQL` call, in program order: `p.mu.Lock()`, the lookup
`p.translateCache[sql]`, on a miss the store `p.translateCache[sql] = csql`, and the deferred
`p.mu.Unlock()` on return. -/
def postgresql.translateEvents (p : postgresql) (sql : GoString) : List DialectEvent :=
  match p.translateCache sql with
  | some _ => [.lock .mu, .cacheRead sql, .unlock .mu]
  | none => [.lock .mu, .cacheRead sql, .cacheWrite sql (translateScan sql), .unlock .mu]

/-- The mutexes a `TranslateSQL` call acquires. -/
def postgresql.locksAcquired (p : postgresql) (sql : GoString) : List Mutex :=
  (p.translateEvents sql).filterMap fun e =>
    match e with
    | .lock m => some m
    | _ => none

/-- The reading of "unrelated cache keys do not serialize": calls on different input strings
acquire no common mutex. -/
def postgresql.KeysDoNotSerialize (p : postgresql) : Prop :=
  ∀ s₁ s₂ : GoString, s₁ ≠ s₂ → ∀ m ∈ p.locksAcquired s₁, m ∉ p.locksAcquired s₂

/-- `postgresql.Lock`: `return fn()`. The critical section `fn` is a function on the state
`σ` of the world it acts on, returning its error (`none` is `nil`); the result is what the
call returns, the world after it, and the events of the call itself on the dialect. -/
def postgresql.Lock {σ ε : Type} (_p : postgresql) (fn : σ → Option ε × σ) (w : σ) :
    (Option ε × σ) × List DialectEvent :=
  (fn w, [])

/-- A critical section instrumented with a counter of its invocations. -/
def counted {σ ε : Type} (fn : σ → Option ε × σ) : σ × Nat → Option ε × (σ × Nat) :=
  fun w => ((fn w.1).1, ((fn w.1).2, w.2 + 1))

/-! ## Concrete inputs -/

/-- Connection details of a local test database. -/
def testDetails : ConnectionDetails :=
  { URL := [], Host := bytes "db", Port := bytes "5432", User := bytes "postgres",
    Password := [], Database := bytes "pop_test" }

/-- A dialect as `newPostgreSQL` builds it, with `Parse` leaving the details as they are. -/
def freshDialect : postgresql := newPostgreSQL (fun _ d => d) testDetails

/-- A dialect whose cache holds one entry, for the key `a=?`. -/
def staleDialect : postgresql :=
  { ConnectionDetails := testDetails
    translateCache := fun k => if k = bytes "a=?" then some (bytes "cached") else none }

/-- A query configured with raw SQL. -/
def rawQuery : Query GoValue :=
  { Query.empty GoValue with RawSQL := ⟨bytes "select 1 where x = ?", [GoValue.int 1]⟩ }

/-- The primary-key column as `Create` has it: the column the statement returns
(`returning id`), decoded through the `db:"id"` tag and handed to `setID`. -/
def postgresql.primaryKeyColumn : GoString := bytes "id"

/-- A store whose `PrepareNamed` fails with error 7. -/
def failingPrepare : store Nat Nat Unit :=
  { PrepareNamed := fun _ => .error 7, Get := fun _ _ => .ok 42 }

/-- A store that prepares statement 1 and whose `Get` fails with error 9. -/
def failingGet : store Nat Nat Unit :=
  { PrepareNamed := fun _ => .ok 1, Get := fun _ _ => .error 9 }

/-- A store that prepares statement 1 and returns the generated id 42. -/
def workingStore : store Nat Nat Unit :=
  { PrepareNamed := fun _ => .ok 1, Get := fun _ _ => .ok 42 }

/-- The columns of a `users` record: `id`, `name` and a read-only `created_at`. -/
def userColumns : Columns :=
  [ ⟨bytes "name", true, true, none⟩, ⟨bytes "id", true, true, none⟩,
    ⟨bytes "created_at", false, true, none⟩, ⟨bytes "email", true, true, none⟩ ]

/-- A `users` model that has no generated key yet. -/
def userModel : Model Unit :=
  { Value := (), ID := 0, TableName := bytes "users", As := bytes "users",
    Columns := userColumns }

/-- The query of `Test_ToSQL`: `Where("id = ?", 1).Join("books b", "b.user_id=?", "xx")`,
the where clause added first. -/
def joinWhereQuery : Query GoValue :=
  { Query.empty GoValue with
    whereClauses := [⟨bytes "id = ?", [GoValue.int 1]⟩]
    joinClauses := [⟨bytes "books b", bytes "b.user_id=?", [GoValue.str (bytes "xx")]⟩] }

/-- The `enemies` model of `Test_GroupBy`, with its one column `A`. -/
def enemyModel : Model Unit :=
  { Value := (), ID := 0, TableName := bytes "enemies", As := bytes "enemies",
    Columns := [⟨bytes "A", true, true, none⟩] }

/-- The query of `Test_GroupBy`:
`GroupBy("A", "B").Having("enemies.A=?", "test").Having("enemies.B=enemies.A")`. -/
def groupHavingQuery : Query GoValue :=
  (((((Query.empty GoValue).GroupBy (bytes "A") [bytes "B"]).1.Having (bytes "enemies.A=?")
    [GoValue.str (bytes "test")]).1).Having (bytes "enemies.B=enemies.A") []).1

/-- A critical section on a counter that fails with error 3. -/
def failingSection : Nat → Option Nat × Nat := fun w => (some 3, w + 10)

/-- The `users` model with its fields declared in another order. -/
def reorderedUserModel : Model Unit :=
  { userModel with Columns :=
      [ ⟨bytes "email", true, true, none⟩, ⟨bytes "created_at", false, true, none⟩,
        ⟨bytes "name", true, true, none⟩, ⟨bytes "id", true, true, none⟩ ] }

/-- The columns of the `User` record of `Test_ToSQL`, in declaration order: ten plain
columns and `full_name`, read through the select override `name as full_name`. -/
def testUserColumns : Columns :=
  [ ⟨bytes "id", true, true, none⟩, ⟨bytes "user_name", true, true, none⟩,
    ⟨bytes "email", true, true, none⟩, ⟨bytes "name", true, true, none⟩,
    ⟨bytes "alive", true, true, none⟩, ⟨bytes "created_at", true, true, none⟩,
    ⟨bytes "updated_at", true, true, none⟩, ⟨bytes "birth_date", true, true, none⟩,
    ⟨bytes "bio", true, true, none⟩, ⟨bytes "price", true, true, none⟩,
    ⟨bytes "full_name", false, true, some (bytes "name as full_name")⟩ ]

/-- The `User` model of `Test_ToSQL` under its default alias `users`. -/
def testUserModel : Model Unit :=
  { Value := (), ID := 0, TableName := bytes "users", As := bytes "users",
    Columns := testUserColumns }

/-- The same model under the alias `u`, as `&Model{Value: &User{}, As: "u"}`. -/
def testUserModelAsU : Model Unit := { testUserModel with As := bytes "u" }

/-- The query of `Test_ToSQL` after `Order("id desc")`. -/
def orderedQuery : Query GoValue :=
  { Query.empty GoValue with orderClauses := [⟨bytes "id desc", []⟩] }

/-- The paginated raw query of `finders_test.go:800`:
`RawQuery("select * from users").Paginate(1, 3)`. -/
def paginatedRawQuery : Query GoValue :=
  ((Query.empty GoValue).RawQuery (bytes "select * from users") []).Paginate 1 3

/-- The selections of `Test_Select`: `Select("name", "email", "\n", "\t\n", "")`. -/
def testSelections : List GoString :=
  [bytes "name", bytes "email", bytes "\n", bytes "\t\n", bytes ""]

/-- The servers of `Test_New_Implementation_For_Nplus1_With_NullUUIDs_And_FK_ID`, as pairs
of a key and a payload. -/
def testServers : List (Nat × Nat) := [(7, 100), (8, 200)]

/-- The hops of the same test: one with a server, one without, both fields still nil. -/
def testHops : List (BelongsToRoot Nat (Nat × Nat)) :=
  [⟨some 7, .ptr none⟩, ⟨none, .ptr none⟩]

/-! ## Lemmas on the decimal digits -/

theorem itoaLoop_eq (fuel : Nat) : ∀ (n : Nat) (acc : GoString), 0 < n → n ≤ fuel →
    itoaLoop fuel n acc = (Nat.digits 10 n).reverse.map (48 + ·) ++ acc := by
  induction fuel with
  | zero => intro n acc h0 h; omega
  | succ fuel ih =>
    intro n acc h0 h
    rw [Nat.digits_def' (by norm_num) h0]
    unfold itoaLoop
    by_cases hz : n / 10 = 0
    · simp [hz]
    · rw [if_neg hz, ih (n / 10) _ (Nat.pos_of_ne_zero hz) (by omega)]
      simp

theorem Itoa_eq_decimal (n : Nat) : Itoa n = decimal n := by
  unfold Itoa decimal
  by_cases h : n = 0
  · subst h; rfl
  · rw [if_neg h, itoaLoop_eq (n + 1) n [] (Nat.pos_of_ne_zero h) (by omega)]
    simp

theorem decimal_digit_range (k d : Nat) (h : d ∈ decimal k) : 48 ≤ d ∧ d ≤ 57 := by
  unfold decimal at h
  split at h
  · simp at h; omega
  · simp only [List.mem_map, List.mem_reverse] at h
    obtain ⟨a, ha, rfl⟩ := h
    have := Nat.digits_lt_base (by norm_num : 1 < 10) ha
    omega

theorem decimal_ne_nil (k : Nat) : decimal k ≠ [] := by
  unfold decimal
  split
  · simp
  · rename_i h
    simp [Nat.digits_ne_nil_iff_ne_zero, h]

/-! ## Lemmas on the scanning loop -/

theorem appendRunes_eq (out str : GoString) :
    appendRunes out str = out ++ str.map (· % 256) := by
  unfold appendRunes
  induction str generalizing out with
  | nil => simp
  | cons c cs ih => simp [ih]

theorem appendRunes_placeholder (out : GoString) (curr : Nat) :
    appendRunes out (36 :: Itoa curr) = out ++ 36 :: decimal curr := by
  rw [appendRunes_eq, Itoa_eq_decimal]
  congr 1
  simp only [List.map_cons]
  congr 1
  conv_rhs => rw [← List.map_id (decimal curr)]
  apply List.map_congr_left
  intro d hd
  have := decimal_digit_range curr d hd
  simp only [id]
  omega

theorem specFrom_nil (pre : Nat) : specFrom pre [] = [] := by
  simp [specFrom]

theorem specFrom_cons (pre c : Nat) (rest : GoString) :
    specFrom pre (c :: rest) =
      (if c = 63 then 36 :: decimal (pre + 1) else [c]) ++
        specFrom (if c = 63 then pre + 1 else pre) rest := by
  unfold specFrom
  rw [List.length_cons, List.range_succ_eq_map, List.flatMap_cons, List.flatMap_map]
  by_cases h : c = 63
  · subst h
    simp [List.count_cons, Nat.add_assoc, Nat.add_comm 1]
  · simp [List.count_cons, h]

theorem translateLoop_eq (rest : GoString) : ∀ (pre : Nat) (out : GoString),
    translateLoop rest (pre + 1) out = out ++ specFrom pre rest := by
  induction rest with
  | nil => intro pre out; simp [translateLoop, specFrom_nil]
  | cons c rest ih =>
    intro pre out
    rw [specFrom_cons]
    unfold translateLoop
    by_cases h : c = 63
    · simp only [h, if_true]
      rw [ih, appendRunes_placeholder]
      simp
    · simp only [h, if_false]
      rw [ih]
      simp

theorem translateScan_eq_spec (s : GoString) : translateScan s = placeholderSpec s := by
  unfold translateScan
  rw [translateLoop_eq s 0 []]
  simp [specFrom, placeholderSpec]

theorem specFrom_append (a : GoString) : ∀ (pre : Nat) (b : GoString),
    specFrom pre (a ++ b) = specFrom pre a ++ specFrom (pre + a.count 63) b := by
  induction a with
  | nil => intro pre b; simp [specFrom_nil]
  | cons c a ih =>
    intro pre b
    rw [List.cons_append, specFrom_cons, specFrom_cons, ih]
    by_cases h : c = 63
    · subst h
      simp [List.count_cons, Nat.add_assoc, Nat.add_comm 1]
    · simp [List.count_cons, h]

theorem specFrom_of_count_eq_zero (a : GoString) : ∀ (pre : Nat), a.count 63 = 0 →
    specFrom pre a = a := by
  induction a with
  | nil => intro pre _; exact specFrom_nil pre
  | cons c a ih =>
    intro pre h
    have hc : c ≠ 63 := by
      intro hc; subst hc; simp [List.count_cons] at h
    have ha : a.count 63 = 0 := by
      simpa [List.count_cons, hc] using h
    rw [specFrom_cons]
    simp [hc, ih pre ha]

theorem count_specFrom (a : GoString) : ∀ (pre : Nat), (specFrom pre a).count 63 = 0 := by
  induction a with
  | nil => intro pre; simp [specFrom_nil]
  | cons c a ih =>
    intro pre
    rw [specFrom_cons, List.count_append, ih]
    by_cases h : c = 63
    · subst h
      have hd : (decimal (pre + 1)).count 63 = 0 := by
        rw [List.count_eq_zero]
        intro hm
        have := decimal_digit_range _ _ hm
        omega
      simp [List.count_cons, hd]
    · have h' : ¬ (63 = c) := fun e => h e.symm
      simp [List.count_cons, h, h']

theorem translateScan_eq_specFrom (s : GoString) : translateScan s = specFrom 0 s := by
  unfold translateScan
  rw [translateLoop_eq s 0 []]
  simp

/-! ## Lemmas on the cache -/

theorem cacheSound_new (Parse : GoString → ConnectionDetails → ConnectionDetails)
    (deets : ConnectionDetails) : (newPostgreSQL Parse deets).CacheSound := by
  intro k v h
  simp [newPostgreSQL] at h

theorem cacheSound_step (p : postgresql) (sql : GoString) (h : p.CacheSound) :
    (p.TranslateSQL sql).2.CacheSound := by
  unfold postgresql.TranslateSQL
  cases hc : p.translateCache sql with
  | some v => simpa using h
  | none =>
    intro k v hk
    simp only at hk
    by_cases e : k = sql
    · subst e
      simp at hk
      exact hk.symm
    · rw [if_neg e] at hk
      exact h k v hk

theorem cacheSound_afterCalls (calls : List GoString) : ∀ (p : postgresql), p.CacheSound →
    (p.afterCalls calls).CacheSound := by
  induction calls with
  | nil => intro p h; exact h
  | cons c cs ih =>
    intro p h
    exact ih _ (cacheSound_step p c h)

theorem translateSQL_of_cacheSound (p : postgresql) (sql : GoString) (h : p.CacheSound) :
    (p.TranslateSQL sql).1 = translateScan sql := by
  unfold postgresql.TranslateSQL
  cases hc : p.translateCache sql with
  | some v => exact h sql v hc
  | none => rfl

theorem translateSQL_of_miss (p : postgresql) (sql : GoString)
    (h : p.translateCache sql = none) :
    p.TranslateSQL sql =
      (translateScan sql,
        { translateCache := fun k => if k = sql then some (translateScan sql)
            else p.translateCache k
          ConnectionDetails := p.ConnectionDetails }) := by
  simp [postgresql.TranslateSQL, h]

/-! ## Lemmas on clause accumulation -/

theorem appendGroupClauses_eq (fields : List GoString) : ∀ (gs : List GroupClause),
    appendGroupClauses gs fields = gs ++ fields.map GroupClause.mk := by
  induction fields with
  | nil => intro gs; simp [appendGroupClauses]
  | cons f fs ih =>
    intro gs
    have := ih (gs ++ [GroupClause.mk f])
    simp only [appendGroupClauses] at this ⊢
    simp [this]

/-! ## Lemmas on columns -/

theorem mem_insertSorted (x y : GoString) (l : List GoString) :
    y ∈ insertSorted x l ↔ y = x ∨ y ∈ l := by
  induction l with
  | nil => simp [insertSorted]
  | cons a as ih =>
    unfold insertSorted
    split
    · simp
    · simp only [List.mem_cons, ih]
      tauto

theorem mem_sortStrings (y : GoString) (l : List GoString) :
    y ∈ sortStrings l ↔ y ∈ l := by
  induction l with
  | nil => simp [sortStrings]
  | cons a as ih => simp [sortStrings, mem_insertSorted, ih]

theorem mem_createColumns_names (cols : Columns) (n : GoString) :
    n ∈ (postgresql.createColumns cols).names ↔
      ∃ c ∈ cols, c.Name = n ∧ c.Writeable = true ∧ n ≠ bytes "id" := by
  unfold Columns.names postgresql.createColumns Columns.Writeable Columns.Remove
  rw [mem_sortStrings]
  simp only [List.mem_map, List.mem_filter, Bool.not_eq_true', decide_eq_false_iff_not]
  constructor
  · rintro ⟨c, ⟨⟨hc, hne⟩, hw⟩, rfl⟩
    exact ⟨c, hc, rfl, hw, hne⟩
  · rintro ⟨c, hc, rfl, hw, hne⟩
    exact ⟨c, ⟨⟨hc, hne⟩, hw⟩, rfl⟩

theorem create_of_prepare_error {ε Stmt V : Type} (p : postgresql) (s : store ε Stmt V)
    (model : Model V) (cols : Columns) (e : ε)
    (h : s.PrepareNamed (postgresql.createQuery model cols) = .error e) :
    p.Create s model cols =
      { err := some e, model := model, logged := [postgresql.createQuery model cols],
        calls := [.prepareNamed (postgresql.createQuery model cols)] } := by
  simp [postgresql.Create, h]

theorem create_of_get_error {ε Stmt V : Type} (p : postgresql) (s : store ε Stmt V)
    (model : Model V) (cols : Columns) (stmt : Stmt) (e : ε)
    (h : s.PrepareNamed (postgresql.createQuery model cols) = .ok stmt)
    (hg : s.Get stmt model.Value = .error e) :
    p.Create s model cols =
      { err := some e, model := model, logged := [postgresql.createQuery model cols],
        calls := [.prepareNamed (postgresql.createQuery model cols), .get stmt] } := by
  simp [postgresql.Create, h, hg]

theorem create_of_get_ok {ε Stmt V : Type} (p : postgresql) (s : store ε Stmt V)
    (model : Model V) (cols : Columns) (stmt : Stmt) (id : Int)
    (h : s.PrepareNamed (postgresql.createQuery model cols) = .ok stmt)
    (hg : s.Get stmt model.Value = .ok id) :
    p.Create s model cols =
      { err := none, model := model.setID id, logged := [postgresql.createQuery model cols],
        calls := [.prepareNamed (postgresql.createQuery model cols), .get stmt] } := by
  simp [postgresql.Create, h, hg]

/-! ## Lemmas on rendering -/

theorem count_join (sep : GoString) (hsep : sep.count 63 = 0) : ∀ (xs : List GoString),
    (join xs sep).count 63 = (xs.map (List.count 63)).sum
  | [] => by simp [join]
  | [x] => by simp [join]
  | x :: y :: ys => by
    have ih := count_join sep hsep (y :: ys)
    simp only [join, List.count_append, hsep, ih]
    simp

theorem sum_count_joins {α : Type} (js : List (JoinClause α))
    (hb : ∀ c ∈ js, c.Balanced) :
    ((js.map JoinClause.String).map (List.count 63)).sum = (js.flatMap (·.Arguments)).length := by
  induction js with
  | nil => simp
  | cons c cs ih =>
    have hc := hb c (List.mem_cons_self c cs)
    have hcs := ih fun d hd => hb d (List.mem_cons_of_mem c hd)
    have h1 : (bytes "JOIN ").count 63 = 0 := by decide
    have h2 : (bytes " ON ").count 63 = 0 := by decide
    simp only [List.map_cons, List.sum_cons, List.flatMap_cons, List.length_append, hcs,
      JoinClause.String, List.count_append, h1, h2, hc.1, hc.2]
    omega

theorem sum_count_wheres {α : Type} (ws : List (clause α))
    (hb : ∀ c ∈ ws, c.Balanced) :
    ((ws.map (·.Fragment)).map (List.count 63)).sum = (ws.flatMap (·.Arguments)).length := by
  induction ws with
  | nil => simp
  | cons c cs ih =>
    have hc : c.Fragment.count 63 = c.Arguments.length := hb c (List.mem_cons_self c cs)
    have hcs := ih fun d hd => hb d (List.mem_cons_of_mem c hd)
    simp only [List.map_cons, List.sum_cons, List.flatMap_cons, List.length_append, hcs, hc]

theorem renderJoins_of_ne_nil {α : Type} (js : List (JoinClause α)) (h : js ≠ []) :
    renderJoins js = bytes " " ++ join (js.map JoinClause.String) (bytes " ") := by
  cases js with
  | nil => exact absurd rfl h
  | cons c cs => rfl

theorem renderWheres_of_ne_nil {α : Type} (ws : List (clause α)) (h : ws ≠ []) :
    renderWheres ws = bytes " WHERE " ++ join (ws.map (·.Fragment)) (bytes " AND ") := by
  cases ws with
  | nil => exact absurd rfl h
  | cons c cs => rfl

theorem count_renderJoins {α : Type} (js : List (JoinClause α)) (h : js ≠ [])
    (hb : ∀ c ∈ js, c.Balanced) :
    (renderJoins js).count 63 = (js.flatMap (·.Arguments)).length := by
  have h1 : (bytes " ").count 63 = 0 := by decide
  rw [renderJoins_of_ne_nil js h, List.count_append, h1, count_join _ h1, sum_count_joins js hb]
  omega

theorem count_renderWheres {α : Type} (ws : List (clause α)) (h : ws ≠ [])
    (hb : ∀ c ∈ ws, c.Balanced) :
    (renderWheres ws).count 63 = (ws.flatMap (·.Arguments)).length := by
  have h1 : (bytes " WHERE ").count 63 = 0 := by decide
  have h2 : (bytes " AND ").count 63 = 0 := by decide
  rw [renderWheres_of_ne_nil ws h, List.count_append, h1, count_join _ h2,
    sum_count_wheres ws hb]
  omega

theorem toSQL_structured {α V : Type} (q : Query α) (p : postgresql) (m : Model V)
    (hraw : q.RawSQL.Fragment = []) (hp : p.CacheSound) :
    (q.ToSQL p m).1 = (translateScan (q.structuredSQL m), q.structuredArgs) := by
  unfold Query.ToSQL
  rw [if_neg (by simp [hraw])]
  simp only
  rw [translateSQL_of_cacheSound p _ hp]

/-! ## Claims -/

/-- C1: on a dialect fresh from `newPostgreSQL`, `TranslateSQL s` is `s` with the k-th `'?'`
byte (counted from 1, left to right) replaced by `'$'` followed by the decimal representation
of k and every other byte kept in place; the tenth placeholder becomes `$10`, and the two
statements of the tests translate as the tests expect. -/
theorem C1_translate_numbers_placeholders :
    (∀ (Parse : GoString → ConnectionDetails → ConnectionDetails) (deets : ConnectionDetails)
        (s : GoString), ((newPostgreSQL Parse deets).TranslateSQL s).1 = placeholderSpec s) ∧
    (freshDialect.TranslateSQL (bytes "??????????")).1 = bytes "$1$2$3$4$5$6$7$8$9$10" ∧
    (freshDialect.TranslateSQL
        (bytes "FROM users AS users JOIN books b ON b.user_id=? WHERE id = ? ORDER BY name asc")).1
      = bytes "FROM users AS users JOIN books b ON b.user_id=$1 WHERE id = $2 ORDER BY name asc" ∧
    (freshDialect.TranslateSQL
        (bytes "SELECT enemies.A FROM enemies AS enemies GROUP BY A, B HAVING enemies.A=?")).1
      = bytes "SELECT enemies.A FROM enemies AS enemies GROUP BY A, B HAVING enemies.A=$1" := by
  refine ⟨?_, ?_, ?_, ?_⟩
  · intro Parse deets s
    rw [translateSQL_of_cacheSound _ _ (cacheSound_new Parse deets)]
    exact translateScan_eq_spec s
  · decide
  · decide
  · decide

/-- C2: on a query configured with raw SQL (`q.RawSQL.Fragment` non-empty) `GroupBy` returns
the receiver with every field as it was: the group clauses, every other clause list and the
raw SQL are those from before the call, so nothing rendered from the query changes. The
method has no error result and is total. -/
theorem C2_groupBy_raw_unchanged {α : Type} (q : Query α) (field : GoString)
    (fields : List GoString) (h : q.RawSQL.Fragment ≠ []) :
    (q.GroupBy field fields).1 = q := by
  simp [Query.GroupBy, h]

theorem C2_groupBy_raw_unchanged_witness :
    rawQuery.RawSQL.Fragment ≠ [] ∧
      (rawQuery.GroupBy (bytes "A") [bytes "B"]).1 = rawQuery :=
  ⟨by decide, C2_groupBy_raw_unchanged rawQuery (bytes "A") [bytes "B"] (by decide)⟩

/-- C3: on a query flagged raw (`q.RawSQL.Fragment` non-empty) `Having` is a no-op: it
returns the receiver with `havingClauses` and every other field unchanged. The method has no
error result and is total. -/
theorem C3_having_raw_noop {α : Type} (q : Query α) (condition : GoString) (args : List α)
    (h : q.RawSQL.Fragment ≠ []) :
    (q.Having condition args).1 = q := by
  simp [Query.Having, h]

theorem C3_having_raw_noop_witness :
    rawQuery.RawSQL.Fragment ≠ [] ∧
      (rawQuery.Having (bytes "enemies.A=?") [GoValue.str (bytes "test")]).1 = rawQuery :=
  ⟨by decide,
    C3_having_raw_noop rawQuery (bytes "enemies.A=?") [GoValue.str (bytes "test")] (by decide)⟩

/-- C4: on a query that is not raw, after `GroupBy(field, fields...)` the group clauses are
the previous ones followed by `GroupClause{field}` and one `GroupClause` per element of
`fields` in argument order; `1 + len(fields)` clauses are added and the earlier clauses stay
in place as a prefix. -/
theorem C4_groupBy_appends {α : Type} (q : Query α) (field : GoString)
    (fields : List GoString) (h : q.RawSQL.Fragment = []) :
    (q.GroupBy field fields).1.groupClauses
        = q.groupClauses ++ GroupClause.mk field :: fields.map GroupClause.mk ∧
      (q.GroupBy field fields).1.groupClauses.length
        = q.groupClauses.length + (1 + fields.length) ∧
      (q.GroupBy field fields).1.groupClauses.take q.groupClauses.length = q.groupClauses := by
  have key : (q.GroupBy field fields).1.groupClauses
      = q.groupClauses ++ GroupClause.mk field :: fields.map GroupClause.mk := by
    unfold Query.GroupBy
    rw [if_neg (by simp [h])]
    by_cases hf : fields.length > 0
    · simp [hf, appendGroupClauses_eq]
    · have : fields = [] := by
        cases fields with
        | nil => rfl
        | cons a as => simp at hf
      subst this
      simp
  refine ⟨key, ?_, ?_⟩
  · rw [key]; simp; omega
  · rw [key]; simp

theorem C4_groupBy_appends_witness :
    (Query.empty GoValue).RawSQL.Fragment = [] ∧
      ((Query.empty GoValue).GroupBy (bytes "A") [bytes "B"]).1.groupClauses
        = [GroupClause.mk (bytes "A"), GroupClause.mk (bytes "B")] :=
  ⟨rfl, (C4_groupBy_appends (Query.empty GoValue) (bytes "A") [bytes "B"] rfl).1⟩

/-- C5: on a query that is not raw, after `Having(condition, args...)` the having clauses
are the previous ones followed by exactly one `HavingClause` holding the condition verbatim
and the arguments in the given order (the empty list when none are passed). -/
theorem C5_having_appends {α : Type} (q : Query α) (condition : GoString) (args : List α)
    (h : q.RawSQL.Fragment = []) :
    (q.Having condition args).1.havingClauses
        = q.havingClauses ++ [HavingClause.mk condition args] ∧
      (q.Having condition []).1.havingClauses
        = q.havingClauses ++ [HavingClause.mk condition []] := by
  simp [Query.Having, h]

theorem C5_having_appends_witness :
    (Query.empty GoValue).RawSQL.Fragment = [] ∧
      ((Query.empty GoValue).Having (bytes "enemies.A=?") [GoValue.str (bytes "test")]).1.RawSQL.Fragment
        = [] ∧
      ((((Query.empty GoValue).Having (bytes "enemies.A=?") [GoValue.str (bytes "test")]).1.Having
          (bytes "enemies.B=enemies.A") []).1.havingClauses
        = [HavingClause.mk (bytes "enemies.A=?") [GoValue.str (bytes "test")],
           HavingClause.mk (bytes "enemies.B=enemies.A") []]) :=
  ⟨rfl, rfl,
    ((C5_having_appends
        ((Query.empty GoValue).Having (bytes "enemies.A=?") [GoValue.str (bytes "test")]).1
        (bytes "enemies.B=enemies.A") [] rfl).1).trans
      (congrArg (· ++ [HavingClause.mk (bytes "enemies.B=enemies.A") []])
        (C5_having_appends (Query.empty GoValue) (bytes "enemies.A=?")
          [GoValue.str (bytes "test")] rfl).1)⟩

/-- C6: `TranslateSQL` is idempotent: on a dialect built by `newPostgreSQL`, whatever calls
came before and in between, translating the result of `TranslateSQL s` gives that result
again; the cache-free scan is idempotent as well. -/
theorem C6_translate_idempotent
    (Parse : GoString → ConnectionDetails → ConnectionDetails) (deets : ConnectionDetails)
    (before between : List GoString) (s : GoString) :
    (postgresql.TranslateSQL
        ((((newPostgreSQL Parse deets).afterCalls before).TranslateSQL s).2.afterCalls between)
        (((newPostgreSQL Parse deets).afterCalls before).TranslateSQL s).1).1
      = (((newPostgreSQL Parse deets).afterCalls before).TranslateSQL s).1 ∧
    translateScan (translateScan s) = translateScan s := by
  have h0 := cacheSound_afterCalls before _ (cacheSound_new Parse deets)
  have h1 := cacheSound_afterCalls between _ (cacheSound_step _ s h0)
  have idem : translateScan (translateScan s) = translateScan s := by
    rw [translateScan_eq_specFrom (translateScan s)]
    apply specFrom_of_count_eq_zero
    rw [translateScan_eq_specFrom s]
    exact count_specFrom s 0
  refine ⟨?_, idem⟩
  rw [translateSQL_of_cacheSound _ _ h1, translateSQL_of_cacheSound _ _ h0]
  exact idem

/-- C7: the cache is keyed by the exact source string. When it has no entry for `s`, after
`TranslateSQL s` returns `r` it maps `s` to `r` and every other key as before; when it has an
entry for `s`, `TranslateSQL s` returns the stored value, whatever it is, and leaves the
dialect unchanged. -/
theorem C7_cache_keyed_by_source (p : postgresql) (s : GoString) :
    (p.translateCache s = none →
      (p.TranslateSQL s).1 = translateScan s ∧
      (p.TranslateSQL s).2.translateCache s = some (p.TranslateSQL s).1 ∧
      (∀ k, k ≠ s → (p.TranslateSQL s).2.translateCache k = p.translateCache k) ∧
      (p.TranslateSQL s).2.ConnectionDetails = p.ConnectionDetails) ∧
    (∀ v, p.translateCache s = some v →
      (p.TranslateSQL s).1 = v ∧ (p.TranslateSQL s).2 = p) := by
  constructor
  · intro h
    rw [translateSQL_of_miss p s h]
    refine ⟨rfl, by simp, ?_, rfl⟩
    intro k hk
    simp [hk]
  · intro v h
    simp [postgresql.TranslateSQL, h]

theorem C7_cache_keyed_by_source_witness :
    (freshDialect.translateCache (bytes "a=?") = none ∧
      (freshDialect.TranslateSQL (bytes "a=?")).2.translateCache (bytes "a=?")
        = some (freshDialect.TranslateSQL (bytes "a=?")).1) ∧
    (staleDialect.translateCache (bytes "a=?") = some (bytes "cached") ∧
      (staleDialect.TranslateSQL (bytes "a=?")).1 = bytes "cached" ∧
      (staleDialect.TranslateSQL (bytes "a=?")).2 = staleDialect) :=
  ⟨⟨rfl, ((C7_cache_keyed_by_source freshDialect (bytes "a=?")).1 rfl).2.1⟩,
    ⟨by decide,
      (C7_cache_keyed_by_source staleDialect (bytes "a=?")).2 (bytes "cached") (by decide)⟩⟩

/-- C8: for every model and column set, the statement `Create` prepares is the INSERT built
from the names of the writeable columns left after `cols.Remove("id")`, and that column list
does not contain the model's primary-key column `id`; every listed name is a writeable column
of the given set. -/
theorem C8_create_excludes_primary_key {ε Stmt V : Type} (p : postgresql)
    (s : store ε Stmt V) (model : Model V) (cols : Columns) :
    (p.Create s model cols).calls.head? = some (StoreCall.prepareNamed
        (bytes "INSERT INTO " ++ model.TableName ++ bytes " (" ++
          join (postgresql.createColumns cols).names (bytes ", ") ++ bytes ") VALUES (" ++
          join ((postgresql.createColumns cols).names.map fun n => 58 :: n) (bytes ", ") ++
          bytes ") returning id")) ∧
      postgresql.primaryKeyColumn ∉ (postgresql.createColumns cols).names ∧
      ∀ n ∈ (postgresql.createColumns cols).names, ∃ c ∈ cols, c.Name = n ∧ c.Writeable = true := by
  refine ⟨?_, ?_, ?_⟩
  · have hq : postgresql.createQuery model cols =
        bytes "INSERT INTO " ++ model.TableName ++ bytes " (" ++
          join (postgresql.createColumns cols).names (bytes ", ") ++ bytes ") VALUES (" ++
          join ((postgresql.createColumns cols).names.map fun n => 58 :: n) (bytes ", ") ++
          bytes ") returning id" := rfl
    rw [← hq]
    cases hp : s.PrepareNamed (postgresql.createQuery model cols) with
    | error e => rw [create_of_prepare_error p s model cols e hp]; rfl
    | ok stmt =>
      cases hg : s.Get stmt model.Value with
      | error e => rw [create_of_get_error p s model cols stmt e hp hg]; rfl
      | ok id => rw [create_of_get_ok p s model cols stmt id hp hg]; rfl
  · intro hmem
    obtain ⟨c, _, _, _, hne⟩ := (mem_createColumns_names cols _).1 hmem
    exact hne rfl
  · intro n hn
    obtain ⟨c, hc, hname, hw, _⟩ := (mem_createColumns_names cols n).1 hn
    exact ⟨c, hc, hname, hw⟩

/-- C9: `Create` returns nil exactly when both `PrepareNamed` and the statement's `Get`
succeed, and then the model's ID is the id `Get` returned; when `PrepareNamed` fails it
returns that error unchanged, the statement is never run and the model is as it was; when
`Get` fails it returns that error unchanged and the model is as it was. -/
theorem C9_create_result {ε Stmt V : Type} (p : postgresql) (s : store ε Stmt V)
    (model : Model V) (cols : Columns) :
    ((p.Create s model cols).err = none ↔
      ∃ stmt id, s.PrepareNamed (postgresql.createQuery model cols) = .ok stmt ∧
        s.Get stmt model.Value = .ok id) ∧
    (∀ stmt id, s.PrepareNamed (postgresql.createQuery model cols) = .ok stmt →
      s.Get stmt model.Value = .ok id →
      (p.Create s model cols).err = none ∧ (p.Create s model cols).model = model.setID id ∧
        (p.Create s model cols).model.ID = id) ∧
    (∀ e, s.PrepareNamed (postgresql.createQuery model cols) = .error e →
      (p.Create s model cols).err = some e ∧ (p.Create s model cols).model = model ∧
        (p.Create s model cols).calls
          = [StoreCall.prepareNamed (postgresql.createQuery model cols)]) ∧
    (∀ stmt e, s.PrepareNamed (postgresql.createQuery model cols) = .ok stmt →
      s.Get stmt model.Value = .error e →
      (p.Create s model cols).err = some e ∧ (p.Create s model cols).model = model) := by
  cases hp : s.PrepareNamed (postgresql.createQuery model cols) with
  | error e =>
    rw [create_of_prepare_error p s model cols e hp]
    simp
  | ok stmt =>
    cases hg : s.Get stmt model.Value with
    | error e =>
      rw [create_of_get_error p s model cols stmt e hp hg]
      refine ⟨by simp [hg], ?_, by simp, ?_⟩
      · intro stmt1 id h1 h2
        cases h1
        rw [hg] at h2
        cases h2
      · intro stmt1 e1 h1 h2
        cases h1
        rw [hg] at h2
        cases h2
        simp
    | ok id =>
      rw [create_of_get_ok p s model cols stmt id hp hg]
      refine ⟨by simp [hg], ?_, by simp, ?_⟩
      · intro stmt1 id1 h1 h2
        cases h1
        rw [hg] at h2
        cases h2
        simp [Model.setID]
      · intro stmt1 e1 h1 h2
        cases h1
        rw [hg] at h2
        cases h2

theorem C9_create_result_witness :
    (workingStore.PrepareNamed (postgresql.createQuery userModel userColumns) = .ok 1 ∧
      workingStore.Get 1 userModel.Value = .ok 42 ∧
      (freshDialect.Create workingStore userModel userColumns).err = none ∧
      (freshDialect.Create workingStore userModel userColumns).model.ID = 42) ∧
    (failingPrepare.PrepareNamed (postgresql.createQuery userModel userColumns) = .error 7 ∧
      (freshDialect.Create failingPrepare userModel userColumns).err = some 7 ∧
      (freshDialect.Create failingPrepare userModel userColumns).model.ID = 0) ∧
    (failingGet.Get 1 userModel.Value = .error 9 ∧
      (freshDialect.Create failingGet userModel userColumns).err = some 9 ∧
      (freshDialect.Create failingGet userModel userColumns).model.ID = 0) :=
  ⟨⟨rfl, rfl,
      ((C9_create_result freshDialect workingStore userModel userColumns).2.1 1 42 rfl rfl).1,
      ((C9_create_result freshDialect workingStore userModel userColumns).2.1 1 42 rfl rfl).2.2⟩,
    ⟨rfl,
      ((C9_create_result freshDialect failingPrepare userModel userColumns).2.2.1 7 rfl).1,
      congrArg Model.ID
        ((C9_create_result freshDialect failingPrepare userModel userColumns).2.2.1 7 rfl).2.1⟩,
    ⟨rfl,
      ((C9_create_result freshDialect failingGet userModel userColumns).2.2.2 1 9 rfl rfl).1,
      congrArg Model.ID
        ((C9_create_result freshDialect failingGet userModel userColumns).2.2.2 1 9 rfl rfl).2⟩⟩

theorem count_Itoa (n : Nat) : (Itoa n).count 63 = 0 := by
  rw [Itoa_eq_decimal, List.count_eq_zero]
  intro hm
  have := decimal_digit_range _ _ hm
  omega

theorem renderGroups_of_ne_nil (gs : List GroupClause) (h : gs ≠ []) :
    renderGroups gs = bytes " GROUP BY " ++ join (gs.map (·.Field)) (bytes ", ") := by
  cases gs with
  | nil => exact absurd rfl h
  | cons c cs => rfl

theorem renderHavings_of_ne_nil {α : Type} (hs : List (HavingClause α)) (h : hs ≠ []) :
    renderHavings hs = bytes " HAVING " ++ join (hs.map (·.Condition)) (bytes " AND ") := by
  cases hs with
  | nil => exact absurd rfl h
  | cons c cs => rfl

theorem count_ItoaInt (i : Int) : (ItoaInt i).count 63 = 0 := by
  unfold ItoaInt
  split <;> simp [List.count_cons, count_Itoa]

theorem count_renderLimitOffset (lo : LimitOffset) : (renderLimitOffset lo).count 63 = 0 := by
  have h1 : (bytes " LIMIT ").count 63 = 0 := by decide
  have h2 : (bytes " OFFSET ").count 63 = 0 := by decide
  unfold renderLimitOffset
  cases lo.Limit <;> cases lo.Offset <;> simp [List.count_append, h1, h2, count_ItoaInt]

theorem wrapInt_of_fits (x : Int) (h0 : 0 ≤ x) (h1 : x < 9223372036854775808) :
    wrapInt x = x := by
  unfold wrapInt
  omega

theorem ItoaInt_of_nonneg (x : Int) (h0 : 0 ≤ x) : ItoaInt x = decimal x.toNat := by
  unfold ItoaInt
  rw [if_neg (by omega), Itoa_eq_decimal]

/-- C11: for every structured query, on a PostgreSQL dialect built by `newPostgreSQL`,
`ToSQL` renders after the WHERE part the group clauses as ` GROUP BY ` and the fields joined
by `, `, then the having clauses as ` HAVING ` and the conditions joined by ` AND `, both in
the order `GroupBy` and `Having` added them, each part with its placeholders numbered on from
those before it. -/
theorem C11_group_having_rendering {α V : Type}
    (Parse : GoString → ConnectionDetails → ConnectionDetails) (deets : ConnectionDetails)
    (calls : List GoString) (q : Query α) (m : Model V) (hraw : q.RawSQL.Fragment = []) :
    (q.ToSQL ((newPostgreSQL Parse deets).afterCalls calls) m).1.1
        = specFrom 0 (q.headSQL m ++ renderJoins q.joinClauses ++ renderWheres q.whereClauses) ++
          specFrom ((q.headSQL m ++ renderJoins q.joinClauses ++
              renderWheres q.whereClauses).count 63) (renderGroups q.groupClauses) ++
          specFrom ((q.headSQL m ++ renderJoins q.joinClauses ++
              renderWheres q.whereClauses).count 63 + (renderGroups q.groupClauses).count 63)
            (renderHavings q.havingClauses) ++
          specFrom ((q.headSQL m ++ renderJoins q.joinClauses ++
              renderWheres q.whereClauses).count 63 + (renderGroups q.groupClauses).count 63 +
              (renderHavings q.havingClauses).count 63)
            (renderOrders q.orderClauses ++ renderLimitOffset q.limitOffset) ∧
    (q.groupClauses ≠ [] → renderGroups q.groupClauses
        = bytes " GROUP BY " ++ join (q.groupClauses.map (·.Field)) (bytes ", ")) ∧
    (q.havingClauses ≠ [] → renderHavings q.havingClauses
        = bytes " HAVING " ++ join (q.havingClauses.map (·.Condition)) (bytes " AND ")) ∧
    (∀ (field : GoString) (fields : List GoString),
      renderGroups (q.GroupBy field fields).1.groupClauses
        = bytes " GROUP BY " ++
            join (q.groupClauses.map (·.Field) ++ field :: fields) (bytes ", ")) ∧
    (∀ (condition : GoString) (args : List α),
      renderHavings (q.Having condition args).1.havingClauses
        = bytes " HAVING " ++
            join (q.havingClauses.map (·.Condition) ++ [condition]) (bytes " AND ")) := by
  have hp := cacheSound_afterCalls calls _ (cacheSound_new Parse deets)
  refine ⟨?_, renderGroups_of_ne_nil _, renderHavings_of_ne_nil _, ?_, ?_⟩
  · rw [toSQL_structured q _ m hraw hp]
    simp only [translateScan_eq_specFrom, Query.structuredSQL, Query.tailSQL, specFrom_append,
      List.count_append, Nat.zero_add, List.append_assoc, Nat.add_assoc]
  · intro field fields
    have key : (q.GroupBy field fields).1.groupClauses
        = q.groupClauses ++ GroupClause.mk field :: fields.map GroupClause.mk := by
      unfold Query.GroupBy
      rw [if_neg (by simp [hraw])]
      by_cases hf : fields.length > 0
      · simp [hf, appendGroupClauses_eq]
      · have : fields = [] := by
          cases fields with
          | nil => rfl
          | cons a as => simp at hf
        subst this
        simp
    rw [renderGroups_of_ne_nil _ (by rw [key]; simp), key]
    simp [Function.comp_def]
  · intro condition args
    have key : (q.Having condition args).1.havingClauses
        = q.havingClauses ++ [HavingClause.mk condition args] := by
      simp [Query.Having, hraw]
    rw [renderHavings_of_ne_nil _ (by rw [key]; simp), key]
    simp

set_option maxRecDepth 20000 in
theorem C11_group_having_rendering_witness :
    groupHavingQuery.RawSQL.Fragment = [] ∧
    renderGroups groupHavingQuery.groupClauses = bytes " GROUP BY A, B" ∧
    renderHavings groupHavingQuery.havingClauses
      = bytes " HAVING enemies.A=? AND enemies.B=enemies.A" ∧
    (groupHavingQuery.ToSQL freshDialect enemyModel).1.1
      = bytes ("SELECT enemies.A FROM enemies AS enemies GROUP BY A, B" ++
          " HAVING enemies.A=$1 AND enemies.B=enemies.A") :=
  ⟨rfl,
    ((C11_group_having_rendering (fun _ d => d) testDetails [] groupHavingQuery enemyModel
      rfl).2.1 (by decide)).trans (by decide),
    by decide, by decide⟩

set_option maxRecDepth 20000 in
theorem raw_pagination_examples :
    (paginatedRawQuery.ToSQL freshDialect userModel).1.1
      = bytes "select * from users LIMIT 3 OFFSET 0" ∧
    hasLimitOrOffset (bytes "select * from users") = false ∧
    hasLimitOrOffset (bytes "this is some ? raw ?") = false ∧
    hasLimitOrOffset (bytes "select * from users limit  2") = true ∧
    hasLimitOrOffset (bytes "select * from users limit 2 offset 1") = true ∧
    hasLimitOrOffset (bytes "select * from users limit 2 offset\t1") = true ∧
    hasLimitOrOffset (bytes "select * from users limit 2 offset\n\t\t\t1") = true ∧
    hasLimitOrOffset (bytes "select * from users limit 2 offset\n\t\t\t1\n\t\t\t") = true ∧
    hasLimitOrOffset (bytes "select * from users limit 2,1") = true ∧
    hasLimitOrOffset (bytes "select * from users limit 2 , 1") = true ∧
    hasLimitOrOffset (bytes "select * from users FETCH FIRST 3 rows only") = true ∧
    ((((Query.empty GoValue).RawQuery (bytes "select * from users limit  2") []).Paginate 1
        5).ToSQL freshDialect userModel).1.1 = bytes "select * from users limit  2" := by
  refine ⟨?_, ?_, ?_, ?_, ?_, ?_, ?_, ?_, ?_, ?_, ?_, ?_⟩ <;> decide

/-- C18: for the PostgreSQL dialect `Lock(fn)` runs `fn` and returns exactly what `fn`
returns, nil or the same error, with the world as `fn` leaves it; `fn` is invoked exactly
once (a counter of its invocations goes up by one) and the call itself neither locks nor
unlocks the dialect's mutex. -/
theorem C18_lock_runs_fn_once {σ ε : Type} (p : postgresql) (fn : σ → Option ε × σ)
    (w : σ) (n : Nat) :
    (p.Lock fn w).1 = fn w ∧
      (p.Lock (counted fn) (w, n)).1 = ((fn w).1, ((fn w).2, n + 1)) ∧
      (p.Lock fn w).2 = [] ∧
      (p.Lock failingSection 0).1 = (some 3, 10) :=
  ⟨rfl, rfl, rfl, rfl⟩

/-- C19, as amended: the translated-SQL cache is guarded by the dialect's single mutex
`p.mu`. Every `TranslateSQL` call, whatever its input, acquires `p.mu` first and releases it
last, and reads or writes the cache only in between, for its own key; so calls on one
dialect serialize, also on different keys. -/
theorem C19_cache_guarded_by_one_mutex (p : postgresql) (s₁ s₂ : GoString) :
    (∃ body : List DialectEvent,
      p.translateEvents s₁ = DialectEvent.lock Mutex.mu :: body ++ [DialectEvent.unlock Mutex.mu] ∧
      ∀ e ∈ body, e = DialectEvent.cacheRead s₁ ∨
        e = DialectEvent.cacheWrite s₁ (p.TranslateSQL s₁).1) ∧
    p.locksAcquired s₁ = [Mutex.mu] ∧
    p.locksAcquired s₂ = p.locksAcquired s₁ := by
  have hl : ∀ s, p.locksAcquired s = [Mutex.mu] := by
    intro s
    unfold postgresql.locksAcquired postgresql.translateEvents
    cases p.translateCache s <;> rfl
  refine ⟨?_, hl s₁, by rw [hl s₁, hl s₂]⟩
  unfold postgresql.translateEvents postgresql.TranslateSQL
  cases p.translateCache s₁ with
  | some v => exact ⟨[DialectEvent.cacheRead s₁], rfl, by simp⟩
  | none =>
    exact ⟨[DialectEvent.cacheRead s₁, DialectEvent.cacheWrite s₁ (translateScan s₁)], rfl,
      by simp⟩

theorem C19_keys_serialize_counterexample :
    bytes "a=?" ≠ bytes "b=?" ∧
      Mutex.mu ∈ freshDialect.locksAcquired (bytes "a=?") ∧
      Mutex.mu ∈ freshDialect.locksAcquired (bytes "b=?") ∧
      ¬ freshDialect.KeysDoNotSerialize := by
  refine ⟨by decide, by decide, by decide, ?_⟩
  intro h
  exact h (bytes "a=?") (bytes "b=?") (by decide) Mutex.mu (by decide) (by decide)

/-- C20: `TranslateSQL` does not special-case quoted string literals: on a dialect fresh
from `newPostgreSQL` a `'?'` between single quotes or between double quotes is replaced by
the next placeholder number like any other, and the placeholders after it are numbered on
from there; `name = '?' AND id = ?` becomes `name = '$1' AND id = $2`. -/
theorem C20_translate_ignores_quotes :
    (∀ (Parse : GoString → ConnectionDetails → ConnectionDetails) (deets : ConnectionDetails)
        (pre post : GoString),
      ((newPostgreSQL Parse deets).TranslateSQL (pre ++ 39 :: 63 :: 39 :: post)).1
        = specFrom 0 pre ++ 39 :: 36 :: decimal (pre.count 63 + 1) ++
            39 :: specFrom (pre.count 63 + 1) post) ∧
    (∀ (Parse : GoString → ConnectionDetails → ConnectionDetails) (deets : ConnectionDetails)
        (pre post : GoString),
      ((newPostgreSQL Parse deets).TranslateSQL (pre ++ 34 :: 63 :: 34 :: post)).1
        = specFrom 0 pre ++ 34 :: 36 :: decimal (pre.count 63 + 1) ++
            34 :: specFrom (pre.count 63 + 1) post) ∧
    (freshDialect.TranslateSQL (bytes "name = '?' AND id = ?")).1
      = bytes "name = '$1' AND id = $2" ∧
    (freshDialect.TranslateSQL (bytes "name = \"?\" AND id = ?")).1
      = bytes "name = \"$1\" AND id = $2" := by
  refine ⟨?_, ?_, by decide, by decide⟩
  · intro Parse deets pre post
    rw [translateSQL_of_cacheSound _ _ (cacheSound_new Parse deets), translateScan_eq_specFrom,
      specFrom_append, specFrom_cons, specFrom_cons, specFrom_cons]
    simp
  · intro Parse deets pre post
    rw [translateSQL_of_cacheSound _ _ (cacheSound_new Parse deets), translateScan_eq_specFrom,
      specFrom_append, specFrom_cons, specFrom_cons, specFrom_cons]
    simp

/-! ## Lemmas on the alphabetical order -/

theorem strLe_total : ∀ (a b : GoString), strLe a b = true ∨ strLe b a = true
  | [], _ => by simp [strLe]
  | _ :: _, [] => by simp [strLe]
  | x :: as, y :: bs => by
    rcases Nat.lt_trichotomy x y with h | h | h
    · simp [strLe, h]
    · subst h
      simpa [strLe] using strLe_total as bs
    · have h' : ¬ x < y := by omega
      simp [strLe, h, h']

theorem strLe_trans : ∀ (a b c : GoString), strLe a b = true → strLe b c = true →
    strLe a c = true
  | [], _, _ => by simp [strLe]
  | _ :: _, [], _ => by simp [strLe]
  | _ :: _, _ :: _, [] => by simp [strLe]
  | x :: as, y :: bs, z :: cs => by
    intro h1 h2
    simp only [strLe] at h1 h2 ⊢
    rcases Nat.lt_trichotomy x y with h | h | h
    · rcases Nat.lt_trichotomy y z with g | g | g
      · have : x < z := by omega
        simp [this]
      · subst g; simp [h]
      · have g' : ¬ y < z := by omega
        simp [g, g'] at h2
    · subst h
      rcases Nat.lt_trichotomy x z with g | g | g
      · simp [g]
      · subst g
        simp at h1 h2 ⊢
        exact strLe_trans as bs cs h1 h2
      · have g' : ¬ x < z := by omega
        simp [g, g'] at h2
    · have h' : ¬ x < y := by omega
      simp [h, h'] at h1

theorem strLe_antisymm : ∀ (a b : GoString), strLe a b = true → strLe b a = true → a = b
  | [], [] => by simp
  | [], _ :: _ => by simp [strLe]
  | _ :: _, [] => by simp [strLe]
  | x :: as, y :: bs => by
    intro h1 h2
    simp only [strLe] at h1 h2
    rcases Nat.lt_trichotomy x y with h | h | h
    · have h' : ¬ y < x := by omega
      simp [h, h'] at h2
    · subst h
      simp at h1 h2
      rw [strLe_antisymm as bs h1 h2]
    · have h' : ¬ x < y := by omega
      simp [h, h'] at h1

theorem insertSorted_eq (x : GoString) (l : List GoString) :
    insertSorted x l = List.orderedInsert (fun a b => strLe a b = true) x l := by
  induction l with
  | nil => rfl
  | cons y ys ih =>
    simp only [insertSorted, List.orderedInsert, ih]

theorem sortStrings_eq (l : List GoString) :
    sortStrings l = List.insertionSort (fun a b => strLe a b = true) l := by
  induction l with
  | nil => rfl
  | cons y ys ih => simp only [sortStrings, List.insertionSort, ih, insertSorted_eq]

theorem sortStrings_sorted (l : List GoString) :
    List.Sorted (fun a b => strLe a b = true) (sortStrings l) := by
  haveI : IsTotal GoString (fun a b => strLe a b = true) := ⟨strLe_total⟩
  haveI : IsTrans GoString (fun a b => strLe a b = true) := ⟨strLe_trans⟩
  rw [sortStrings_eq]
  exact List.sorted_insertionSort _ l

theorem sortStrings_perm (l : List GoString) : (sortStrings l).Perm l := by
  rw [sortStrings_eq]
  exact List.perm_insertionSort _ l

theorem sortStrings_eq_of_perm {l₁ l₂ : List GoString} (h : l₁.Perm l₂) :
    sortStrings l₁ = sortStrings l₂ := by
  haveI : IsAntisymm GoString (fun a b => strLe a b = true) := ⟨strLe_antisymm⟩
  exact List.eq_of_perm_of_sorted
    (((sortStrings_perm l₁).trans h).trans (sortStrings_perm l₂).symm)
    (sortStrings_sorted l₁) (sortStrings_sorted l₂)

theorem strLe_append_left (p a b : GoString) : strLe (p ++ a) (p ++ b) = strLe a b := by
  induction p with
  | nil => rfl
  | cons x p ih => simp [strLe, ih]

theorem insertSorted_map_append (p x : GoString) (l : List GoString) :
    insertSorted (p ++ x) (l.map (p ++ ·)) = (insertSorted x l).map (p ++ ·) := by
  induction l with
  | nil => rfl
  | cons y ys ih =>
    simp only [List.map_cons, insertSorted, strLe_append_left]
    split
    · rfl
    · simp [ih]

theorem sortStrings_map_append (p : GoString) (l : List GoString) :
    sortStrings (l.map (p ++ ·)) = (sortStrings l).map (p ++ ·) := by
  induction l with
  | nil => rfl
  | cons y ys ih => simp only [List.map_cons, sortStrings, ih, insertSorted_map_append]

theorem toSQL_of_not_raw {α V : Type} (q : Query α) (p : postgresql) (m : Model V)
    (hraw : q.RawSQL.Fragment = []) :
    q.ToSQL p m
      = (((p.TranslateSQL (q.structuredSQL m)).1, q.structuredArgs),
          (p.TranslateSQL (q.structuredSQL m)).2) := by
  unfold Query.ToSQL
  rw [if_neg (by simp [hraw])]

/-- C12, as amended: for every model and structured query without explicit selection,
`ToSQL` renders after `SELECT` the readable columns of the model in alphabetical order of
their rendered text, which is the select override of a column that has one and the
alias-qualified name otherwise; the result is the same for every declaration order of the
fields, and for a model without select overrides it is the alphabetical order of the column
names. With explicit plain selections (`Select`) the blank entries are ignored and the
remaining ones are rendered in alphabetical order. -/
theorem C12_columns_alphabetical {α V : Type} (q : Query α) (m : Model V) (p : postgresql)
    (hraw : q.RawSQL.Fragment = []) (hsel : q.addColumns = []) :
    (q.ToSQL p m).1.1 = (p.TranslateSQL (bytes "SELECT " ++
        join (sortStrings (m.Columns.Readable.map (Column.selectExpr m.As))) (bytes ", ") ++
        bytes " FROM " ++ m.TableName ++ bytes " AS " ++ m.As ++ renderJoins q.joinClauses ++
        renderWheres q.whereClauses ++ q.tailSQL)).1 ∧
    List.Sorted (fun a b => strLe a b = true)
      (sortStrings (m.Columns.Readable.map (Column.selectExpr m.As))) ∧
    (sortStrings (m.Columns.Readable.map (Column.selectExpr m.As))).Perm
      (m.Columns.Readable.map (Column.selectExpr m.As)) ∧
    (∀ m' : Model V, m'.Columns.Perm m.Columns → m'.As = m.As → m'.TableName = m.TableName →
      (q.ToSQL p m').1 = (q.ToSQL p m).1) ∧
    ((∀ c ∈ m.Columns.Readable, c.SelectSQL = none) →
      sortStrings (m.Columns.Readable.map (Column.selectExpr m.As))
        = (sortStrings (m.Columns.Readable.map (·.Name))).map (fun n => m.As ++ 46 :: n) ∧
      List.Sorted (fun a b => strLe a b = true)
        (sortStrings (m.Columns.Readable.map (·.Name)))) ∧
    (∀ fields : List GoString, (fields.filter fun f => !isBlank f) ≠ [] →
      ((q.Select fields).ToSQL p m).1.1 = (p.TranslateSQL (bytes "SELECT " ++
        join (sortStrings (fields.filter fun f => !isBlank f).dedup) (bytes ", ") ++
        bytes " FROM " ++ m.TableName ++ bytes " AS " ++ m.As ++ renderJoins q.joinClauses ++
        renderWheres q.whereClauses ++ q.tailSQL)).1) ∧
    (∀ fields : List GoString,
      List.Sorted (fun a b => strLe a b = true)
        (sortStrings (fields.filter fun f => !isBlank f).dedup) ∧
      ∀ f, f ∈ sortStrings (fields.filter fun f => !isBlank f).dedup ↔
        f ∈ fields ∧ isBlank f = false) := by
  have hcols : ∀ m₀ : Model V, q.selectColumns m₀
      = sortStrings (m₀.Columns.Readable.map (Column.selectExpr m₀.As)) := by
    intro m₀
    simp only [Query.selectColumns, hsel, List.isEmpty_nil, if_true]
  refine ⟨?_, sortStrings_sorted _, sortStrings_perm _, ?_, ?_, ?_, ?_⟩
  · rw [toSQL_of_not_raw q p m hraw]
    simp only [Query.structuredSQL, Query.headSQL, hcols]
  · intro m' hperm has htab
    have hsame : q.structuredSQL m' = q.structuredSQL m := by
      have hnames : sortStrings (m'.Columns.Readable.map (Column.selectExpr m'.As))
          = sortStrings (m.Columns.Readable.map (Column.selectExpr m.As)) := by
        rw [has]
        exact sortStrings_eq_of_perm ((hperm.filter _).map _)
      simp only [Query.structuredSQL, Query.headSQL, hcols, hnames, htab]
      rw [has]
    rw [toSQL_of_not_raw q p m' hraw, toSQL_of_not_raw q p m hraw, hsame]
  · intro hplain
    refine ⟨?_, sortStrings_sorted _⟩
    have hexpr : m.Columns.Readable.map (Column.selectExpr m.As)
        = (m.Columns.Readable.map (·.Name)).map ((m.As ++ [46]) ++ ·) := by
      rw [List.map_map]
      apply List.map_congr_left
      intro c hc
      simp [Column.selectExpr, hplain c hc]
    rw [hexpr, sortStrings_map_append]
    simp
  · intro fields hne
    have hraw' : (q.Select fields).RawSQL.Fragment = [] := hraw
    rw [toSQL_of_not_raw _ p m hraw']
    have hadd : (q.Select fields).addColumns = fields.filter fun f => !isBlank f := by
      simp [Query.Select, hsel]
    have hne' : (fields.filter fun f => !isBlank f).isEmpty = false := by
      cases hf : fields.filter fun f => !isBlank f with
      | nil => exact absurd hf hne
      | cons a as => rfl
    have hcol : (q.Select fields).selectColumns m
        = sortStrings (fields.filter fun f => !isBlank f).dedup := by
      simp only [Query.selectColumns, hadd, hne']
      rfl
    simp only [Query.structuredSQL, Query.headSQL, hcol]
    rfl
  · intro fields
    refine ⟨sortStrings_sorted _, ?_⟩
    intro f
    rw [(sortStrings_perm _).mem_iff, List.mem_dedup, List.mem_filter]
    simp

set_option maxRecDepth 40000 in
theorem C12_columns_alphabetical_witness :
    (orderedQuery.RawSQL.Fragment = [] ∧ orderedQuery.addColumns = [] ∧
      reorderedUserModel.Columns.Perm userModel.Columns ∧
      (∀ c ∈ userModel.Columns.Readable, c.SelectSQL = none) ∧
      (testSelections.filter fun f => !isBlank f) ≠ []) ∧
    ((Query.empty GoValue).ToSQL freshDialect reorderedUserModel).1
      = ((Query.empty GoValue).ToSQL freshDialect userModel).1 ∧
    sortStrings (userModel.Columns.Readable.map (Column.selectExpr userModel.As))
      = (sortStrings (userModel.Columns.Readable.map (·.Name))).map
          (fun n => userModel.As ++ 46 :: n) ∧
    ((Query.empty GoValue).ToSQL freshDialect testUserModel).1.1
      = bytes ("SELECT name as full_name, users.alive, users.bio, users.birth_date, " ++
          "users.created_at, users.email, users.id, users.name, users.price, " ++
          "users.updated_at, users.user_name FROM users AS users") ∧
    (orderedQuery.ToSQL freshDialect testUserModelAsU).1.1
      = bytes ("SELECT name as full_name, u.alive, u.bio, u.birth_date, u.created_at, " ++
          "u.email, u.id, u.name, u.price, u.updated_at, u.user_name FROM users AS u " ++
          "ORDER BY id desc") ∧
    (((Query.empty GoValue).Select testSelections).ToSQL freshDialect userModel).1.1
      = bytes "SELECT email, name FROM users AS users" :=
  ⟨⟨rfl, rfl, by decide, by decide, by decide⟩,
    (C12_columns_alphabetical (Query.empty GoValue) userModel freshDialect rfl rfl).2.2.2.1
      reorderedUserModel (by decide) rfl rfl,
    ((C12_columns_alphabetical (Query.empty GoValue) userModel freshDialect rfl
      rfl).2.2.2.2.1 (by decide)).1,
    by decide, by decide, by decide⟩

set_option maxRecDepth 40000 in
theorem C12_user_model_counterexample :
    ((Query.empty GoValue).ToSQL freshDialect testUserModel).1.1
      = bytes ("SELECT name as full_name, users.alive, users.bio, users.birth_date, " ++
          "users.created_at, users.email, users.id, users.name, users.price, " ++
          "users.updated_at, users.user_name FROM users AS users") ∧
    (Query.empty GoValue).selectColumns testUserModel
      ≠ (sortStrings (testUserModel.Columns.Readable.map (·.Name))).map
          (fun n => testUserModel.As ++ 46 :: n) ∧
    ¬ List.Sorted (fun a b => strLe a b = true)
        [bytes "full_name", bytes "alive", bytes "bio"] := by
  refine ⟨by decide, by decide, ?_⟩
  intro h
  have h1 := List.rel_of_sorted_cons h (bytes "alive") (List.mem_cons_self _ _)
  revert h1
  decide

/-! ## Lemmas on `Where`, argument values and preloading -/

theorem count_placeholders (n : Nat) : (placeholders n).count 63 = n := by
  have hsep : (bytes ", ").count 63 = 0 := by decide
  unfold placeholders
  rw [count_join _ hsep]
  simp

theorem placeholders_succ_succ (n : Nat) :
    placeholders (n + 2) = [63] ++ bytes ", " ++ placeholders (n + 1) := rfl

theorem specFrom_placeholders (n : Nat) : ∀ pre : Nat,
    specFrom pre (placeholders n)
      = join ((List.range' (pre + 1) n).map fun k => 36 :: decimal k) (bytes ", ") := by
  cases n with
  | zero => intro pre; simp [placeholders, join, specFrom_nil]
  | succ n =>
    induction n with
    | zero =>
      intro pre
      have : placeholders 1 = [63] := rfl
      rw [this, specFrom_cons, specFrom_nil]
      simp [join]
    | succ n ih =>
      intro pre
      have hsep : (bytes ", ").count 63 = 0 := by decide
      rw [placeholders_succ_succ, specFrom_append, specFrom_append,
        specFrom_of_count_eq_zero _ _ hsep, specFrom_cons, specFrom_nil, ih]
      simp [List.range'_succ, join, hsep, Nat.add_assoc]

theorem whereFragment_slice {α : Type} (xs : List α) :
    whereFragment (bytes "id in (?)") [Arg.slice xs]
      = bytes "id in (" ++ placeholders xs.length ++ bytes ")" := by
  rfl

theorem whereFragment_positional {α : Type} (xs : List α) (h : xs ≠ []) :
    whereFragment (bytes "id in (?)") (xs.map Arg.one)
      = bytes "id in (" ++ placeholders xs.length ++ bytes ")" := by
  unfold whereFragment
  have hall : (xs.map (Arg.one)).all (fun a => !a.isSlice) = true := by
    simp [Arg.isSlice]
  by_cases h2 : 2 ≤ (xs.map (Arg.one (α := α))).length
  · rw [if_pos ⟨h2, hall⟩]
    simp only [List.length_map]
    rfl
  · rw [if_neg (fun hh => h2 hh.1)]
    match xs, h with
    | [x], _ => rfl
    | _ :: _ :: _, _ => simp at h2

theorem expandSlices_congr {α β : Type} (s : GoString) : ∀ (a₁ : List (Arg α)) (a₂ : List (Arg β)),
    a₁.map Arg.shape = a₂.map Arg.shape → expandSlices s a₁ = expandSlices s a₂ := by
  induction s with
  | nil => intro a₁ a₂ _; cases a₁ <;> cases a₂ <;> rfl
  | cons b r ih =>
    intro a₁ a₂ h
    cases a₁ with
    | nil =>
      cases a₂ with
      | nil => rfl
      | cons y ys => simp at h
    | cons x xs =>
      cases a₂ with
      | nil => simp at h
      | cons y ys =>
        simp only [List.map_cons, List.cons.injEq] at h
        obtain ⟨hxy, hrest⟩ := h
        have hfull : (x :: xs).map Arg.shape = (y :: ys).map Arg.shape := by
          simp [hxy, hrest]
        by_cases hb : b = 63
        · subst hb
          cases x with
          | one a =>
            cases y with
            | one c => simp [expandSlices, ih xs ys hrest]
            | slice cs => simp [Arg.shape] at hxy
          | slice as =>
            cases y with
            | one c => simp [Arg.shape] at hxy
            | slice cs =>
              simp only [Arg.shape, Option.some.injEq] at hxy
              simp [expandSlices, ih xs ys hrest, hxy]
        · simp [expandSlices, hb, ih _ _ hfull]

theorem isSlice_eq_of_shape {α β : Type} (x : Arg α) (y : Arg β) (h : x.shape = y.shape) :
    x.isSlice = y.isSlice := by
  cases x <;> cases y <;> simp [Arg.shape, Arg.isSlice] at h ⊢

theorem all_not_slice_congr {α β : Type} : ∀ (a₁ : List (Arg α)) (a₂ : List (Arg β)),
    a₁.map Arg.shape = a₂.map Arg.shape →
      a₁.all (fun a => !a.isSlice) = a₂.all (fun a => !a.isSlice)
  | [], [], _ => rfl
  | [], _ :: _, h => by simp at h
  | _ :: _, [], h => by simp at h
  | x :: xs, y :: ys, h => by
    simp only [List.map_cons, List.cons.injEq] at h
    simp only [List.all_cons, isSlice_eq_of_shape x y h.1, all_not_slice_congr xs ys h.2]

theorem whereFragment_congr {α β : Type} (s : GoString) (a₁ : List (Arg α)) (a₂ : List (Arg β))
    (h : a₁.map Arg.shape = a₂.map Arg.shape) : whereFragment s a₁ = whereFragment s a₂ := by
  have hlen : a₁.length = a₂.length := by
    have := congrArg List.length h
    simpa using this
  unfold whereFragment
  rw [hlen, all_not_slice_congr a₁ a₂ h, expandSlices_congr s a₁ a₂ h]

theorem renderJoins_mapArgs {α β : Type} (f : α → β) (js : List (JoinClause α)) :
    renderJoins (js.map (JoinClause.mapArgs f)) = renderJoins js := by
  have h : (js.map (JoinClause.mapArgs f)).map JoinClause.String = js.map JoinClause.String := by
    rw [List.map_map]
    rfl
  unfold renderJoins
  rw [h]
  cases js <;> rfl

theorem renderWheres_mapArgs {α β : Type} (f : α → β) (ws : List (clause α)) :
    renderWheres (ws.map (clause.mapArgs f)) = renderWheres ws := by
  cases ws with
  | nil => rfl
  | cons c cs => simp [renderWheres, List.map_map, Function.comp_def, clause.mapArgs]

theorem renderOrders_mapArgs {α β : Type} (f : α → β) (os : List (clause α)) :
    renderOrders (os.map (clause.mapArgs f)) = renderOrders os := by
  cases os with
  | nil => rfl
  | cons c cs => simp [renderOrders, List.map_map, Function.comp_def, clause.mapArgs]

theorem renderHavings_mapArgs {α β : Type} (f : α → β) (hs : List (HavingClause α)) :
    renderHavings (hs.map (HavingClause.mapArgs f)) = renderHavings hs := by
  cases hs with
  | nil => rfl
  | cons c cs => simp [renderHavings, List.map_map, Function.comp_def, HavingClause.mapArgs]

theorem structuredSQL_mapArgs {α β V : Type} (f : α → β) (q : Query α) (m : Model V) :
    (q.mapArgs f).structuredSQL m = q.structuredSQL m := by
  simp only [Query.structuredSQL, Query.tailSQL, Query.mapArgs, renderJoins_mapArgs,
    renderWheres_mapArgs, renderOrders_mapArgs, renderHavings_mapArgs, Query.headSQL,
    Query.selectColumns]

theorem structuredArgs_mapArgs {α β : Type} (f : α → β) (q : Query α) :
    (q.mapArgs f).structuredArgs = q.structuredArgs.map f := by
  simp [Query.structuredArgs, Query.joinArgs, Query.whereArgs, Query.tailArgs, Query.mapArgs,
    List.flatMap_map, List.map_flatMap, clause.mapArgs, JoinClause.mapArgs, HavingClause.mapArgs]

theorem toSQL_mapArgs {α β V : Type} (f : α → β) (q : Query α) (p : postgresql) (m : Model V) :
    ((q.mapArgs f).ToSQL p m).1.1 = (q.ToSQL p m).1.1 ∧
      ((q.mapArgs f).ToSQL p m).1.2 = (q.ToSQL p m).1.2.map f := by
  unfold Query.ToSQL
  have hr : (q.mapArgs f).RawSQL.Fragment = q.RawSQL.Fragment := rfl
  have ht : (q.mapArgs f).rawText = q.rawText := rfl
  rw [hr, ht]
  by_cases h : q.RawSQL.Fragment = []
  · simp [h, structuredSQL_mapArgs, structuredArgs_mapArgs]
  · simp [h, Query.mapArgs, clause.mapArgs]

theorem toSQL_text_congr {α V : Type} (q₁ q₂ : Query α) (p : postgresql) (m : Model V)
    (hraw : q₁.RawSQL.Fragment = q₂.RawSQL.Fragment)
    (htext : q₁.rawText = q₂.rawText)
    (hsql : q₁.structuredSQL m = q₂.structuredSQL m) :
    (q₁.ToSQL p m).1.1 = (q₂.ToSQL p m).1.1 := by
  unfold Query.ToSQL
  rw [hraw, hsql, htext]
  by_cases h : q₂.RawSQL.Fragment = [] <;> simp [h]

theorem where_text {α V : Type} (p : postgresql) (q : Query α) (m : Model V)
    (fragment : GoString) (args₁ args₂ : List (Arg α))
    (hshape : args₁.map Arg.shape = args₂.map Arg.shape) :
    ((q.Where fragment args₁).1.ToSQL p m).1.1 = ((q.Where fragment args₂).1.ToSQL p m).1.1 := by
  apply toSQL_text_congr
  · unfold Query.Where; split <;> rfl
  · unfold Query.Where; split <;> rfl
  · unfold Query.Where
    rw [whereFragment_congr fragment args₁ args₂ hshape]
    split
    · rfl
    · simp [Query.structuredSQL, Query.headSQL, Query.selectColumns, Query.tailSQL, renderWheres]

theorem having_text {α V : Type} (p : postgresql) (q : Query α) (m : Model V)
    (condition : GoString) (a₁ a₂ : List α) :
    ((q.Having condition a₁).1.ToSQL p m).1.1 = ((q.Having condition a₂).1.ToSQL p m).1.1 := by
  apply toSQL_text_congr
  · unfold Query.Having; split <;> rfl
  · unfold Query.Having; split <;> rfl
  · unfold Query.Having
    split
    · rfl
    · simp [Query.structuredSQL, Query.headSQL, Query.selectColumns, Query.tailSQL,
        renderHavings]

theorem assignBelongsTo_key {K T : Type} [DecidableEq K] (id : T → K) (found : List T)
    (r : BelongsToRoot K T) : (assignBelongsTo id found r).ForeignKey = r.ForeignKey := by
  unfold assignBelongsTo
  split
  · rfl
  · split <;> rfl

theorem assignBelongsTo_null {K T : Type} [DecidableEq K] (id : T → K) (found : List T)
    (r : BelongsToRoot K T) (h : r.ForeignKey = none) : assignBelongsTo id found r = r := by
  unfold assignBelongsTo
  rw [h]

theorem assignBelongsTo_valid {K T : Type} [DecidableEq K] (id : T → K) (found : List T)
    (r : BelongsToRoot K T) (k : K) (h : r.ForeignKey = some k)
    (hex : ∃ t ∈ found, id t = k) :
    ∃ t ∈ found, id t = k ∧ (assignBelongsTo id found r).Field = r.Field.assign t := by
  obtain ⟨t₀, ht₀, hk₀⟩ := hex
  cases hf : found.find? (fun t => decide (id t = k)) with
  | none =>
    rw [List.find?_eq_none] at hf
    have := hf t₀ ht₀
    simp [hk₀] at this
  | some t =>
    have hmem := List.mem_of_find?_eq_some hf
    have hid := List.find?_some hf
    refine ⟨t, hmem, by simpa using hid, ?_⟩
    unfold assignBelongsTo
    rw [h]
    simp only [hf]

theorem flatMap_values_one {α : Type} (xs : List α) :
    (xs.map Arg.one).flatMap Arg.values = xs := by
  induction xs with
  | nil => rfl
  | cons x xs ih => simp [Arg.values, ih]

/-- C13: for every non-empty list `[x1..xn]`, `Where("id in (?)", [x1..xn])` on a fresh
query stores the fragment `id in (?, ..., ?)` with exactly n placeholders and the arguments
`x1..xn` in that order, before any dialect is involved; passing `x1..xn` as separate
positional arguments gives the same query. Under PostgreSQL `ToSQL` renders the n
placeholders as consecutive numbers and returns exactly `[x1..xn]`. -/
theorem C13_where_in_expansion {α V : Type}
    (Parse : GoString → ConnectionDetails → ConnectionDetails) (deets : ConnectionDetails)
    (calls : List GoString) (m : Model V) (xs : List α) (hne : xs ≠ []) :
    ((Query.empty α).Where (bytes "id in (?)") [Arg.slice xs]).1.whereClauses
        = [⟨bytes "id in (" ++ placeholders xs.length ++ bytes ")", xs⟩] ∧
    (bytes "id in (" ++ placeholders xs.length ++ bytes ")").count 63 = xs.length ∧
    ((Query.empty α).Where (bytes "id in (?)") (xs.map Arg.one)).1
        = ((Query.empty α).Where (bytes "id in (?)") [Arg.slice xs]).1 ∧
    (((Query.empty α).Where (bytes "id in (?)") [Arg.slice xs]).1.ToSQL
        ((newPostgreSQL Parse deets).afterCalls calls) m).1
      = (translateScan (selectHead m) ++ bytes " WHERE id in (" ++
          join ((List.range' ((selectHead m).count 63 + 1) xs.length).map
            fun k => 36 :: decimal k) (bytes ", ") ++ bytes ")", xs) := by
  have hp := cacheSound_afterCalls calls _ (cacheSound_new Parse deets)
  have hq : ((Query.empty α).Where (bytes "id in (?)") [Arg.slice xs]).1
      = { Query.empty α with whereClauses :=
            [⟨bytes "id in (" ++ placeholders xs.length ++ bytes ")", xs⟩] } := by
    simp [Query.Where, Query.empty, whereFragment_slice, Arg.values]
  have h1 : (bytes "id in (").count 63 = 0 := by decide
  have h2 : (bytes ")").count 63 = 0 := by decide
  have h3 : (bytes " WHERE ").count 63 = 0 := by decide
  refine ⟨by rw [hq], ?_, ?_, ?_⟩
  · simp [List.count_append, h1, h2, count_placeholders]
  · rw [hq]
    simp [Query.Where, Query.empty, whereFragment_positional xs hne, flatMap_values_one]
  · rw [hq, toSQL_structured _ _ m rfl hp]
    have hsql : Query.structuredSQL ({ Query.empty α with whereClauses :=
          [⟨bytes "id in (" ++ placeholders xs.length ++ bytes ")", xs⟩] }) m
        = selectHead m ++ (bytes " WHERE " ++ (bytes "id in (" ++
            (placeholders xs.length ++ bytes ")"))) := by
      simp [Query.structuredSQL, Query.headSQL, Query.selectColumns, Query.tailSQL,
        Query.empty, renderJoins, renderWheres, renderGroups, renderHavings, renderOrders,
        renderLimitOffset, selectHead, join]
    have hargs : Query.structuredArgs ({ Query.empty α with whereClauses :=
          [⟨bytes "id in (" ++ placeholders xs.length ++ bytes ")", xs⟩] }) = xs := by
      simp [Query.structuredArgs, Query.joinArgs, Query.whereArgs, Query.tailArgs, Query.empty]
    rw [hsql, hargs, translateScan_eq_specFrom, specFrom_append, specFrom_append,
      specFrom_append, specFrom_append, specFrom_of_count_eq_zero _ _ h3,
      specFrom_of_count_eq_zero _ _ h1, specFrom_of_count_eq_zero _ _ h2,
      specFrom_placeholders, ← translateScan_eq_specFrom]
    simp only [List.count_append, h1, h3, Nat.add_zero, Nat.zero_add, List.append_assoc]
    rfl

set_option maxRecDepth 20000 in
theorem C13_where_in_expansion_witness :
    [GoValue.int 4, GoValue.int 5, GoValue.int 6] ≠ [] ∧
    ((Query.empty GoValue).Where (bytes "id in (?)")
        [Arg.slice [GoValue.int 4, GoValue.int 5, GoValue.int 6]]).1.whereClauses
      = [⟨bytes "id in (?, ?, ?)", [GoValue.int 4, GoValue.int 5, GoValue.int 6]⟩] ∧
    ((Query.empty GoValue).Where (bytes "id in (?)")
        [Arg.one (GoValue.int 4), Arg.one (GoValue.int 5), Arg.one (GoValue.int 6)]).1
      = ((Query.empty GoValue).Where (bytes "id in (?)")
        [Arg.slice [GoValue.int 4, GoValue.int 5, GoValue.int 6]]).1 ∧
    (((Query.empty GoValue).Where (bytes "id in (?)")
        [Arg.slice [GoValue.int 4, GoValue.int 5, GoValue.int 6]]).1.ToSQL freshDialect
        enemyModel).1
      = (bytes "SELECT enemies.A FROM enemies AS enemies WHERE id in ($1, $2, $3)",
          [GoValue.int 4, GoValue.int 5, GoValue.int 6]) :=
  ⟨by decide,
    (C13_where_in_expansion (fun _ d => d) testDetails [] enemyModel
      [GoValue.int 4, GoValue.int 5, GoValue.int 6] (by decide)).1,
    (C13_where_in_expansion (fun _ d => d) testDetails [] enemyModel
      [GoValue.int 4, GoValue.int 5, GoValue.int 6] (by decide)).2.2.1,
    by decide⟩

/-- C17: the SQL text of a query does not depend on argument values. Two `Where` calls with
the same fragment and argument lists of the same length and shape render the same SQL, and
so do two `Having` calls with the same condition and any arguments; `Having` stores its
condition verbatim and its arguments apart; and replacing every argument value of a query
leaves the rendered text as it is and only replaces the values of the returned argument
list. -/
theorem C17_sql_text_independent_of_values {α V : Type} (p : postgresql) (q : Query α)
    (m : Model V) (fragment : GoString) (args₁ args₂ : List (Arg α))
    (hshape : args₁.map Arg.shape = args₂.map Arg.shape) :
    ((q.Where fragment args₁).1.ToSQL p m).1.1 = ((q.Where fragment args₂).1.ToSQL p m).1.1 ∧
    (∀ (condition : GoString) (a₁ a₂ : List α),
      ((q.Having condition a₁).1.ToSQL p m).1.1 = ((q.Having condition a₂).1.ToSQL p m).1.1) ∧
    (∀ (condition : GoString) (a : List α), q.RawSQL.Fragment = [] →
      (q.Having condition a).1.havingClauses
        = q.havingClauses ++ [HavingClause.mk condition a]) ∧
    (∀ (β : Type) (f : α → β),
      ((q.mapArgs f).ToSQL p m).1.1 = (q.ToSQL p m).1.1 ∧
        ((q.mapArgs f).ToSQL p m).1.2 = (q.ToSQL p m).1.2.map f) := by
  refine ⟨where_text p q m fragment args₁ args₂ hshape, having_text p q m, ?_,
    fun β f => toSQL_mapArgs f q p m⟩
  intro condition a hraw
  simp [Query.Having, hraw]

set_option maxRecDepth 20000 in
theorem C17_sql_text_independent_of_values_witness :
    [Arg.one (GoValue.str (bytes "'; truncate users; --"))].map Arg.shape
      = [Arg.one (GoValue.str (bytes "Mark"))].map Arg.shape ∧
    (((Query.empty GoValue).Where (bytes "name = ?")
        [Arg.one (GoValue.str (bytes "'; truncate users; --"))]).1.ToSQL freshDialect
        enemyModel).1.1
      = (((Query.empty GoValue).Where (bytes "name = ?")
        [Arg.one (GoValue.str (bytes "Mark"))]).1.ToSQL freshDialect enemyModel).1.1 ∧
    ((Query.empty GoValue).Where (bytes "name = ?")
        [Arg.one (GoValue.str (bytes "'; truncate users; --"))]).1.structuredSQL enemyModel
      = bytes "SELECT enemies.A FROM enemies AS enemies WHERE name = ?" ∧
    (((Query.empty GoValue).Where (bytes "name = ?")
        [Arg.one (GoValue.str (bytes "'; truncate users; --"))]).1.ToSQL freshDialect
        enemyModel).1
      = (bytes "SELECT enemies.A FROM enemies AS enemies WHERE name = $1",
          [GoValue.str (bytes "'; truncate users; --")]) :=
  ⟨rfl,
    (C17_sql_text_independent_of_values freshDialect (Query.empty GoValue) enemyModel
      (bytes "name = ?") [Arg.one (GoValue.str (bytes "'; truncate users; --"))]
      [Arg.one (GoValue.str (bytes "Mark"))] rfl).1,
    by decide, by decide⟩

/-! ## Lemmas on counts and on chained calls -/

theorem count_dollar_decimal (k : Nat) : (decimal k).count 36 = 0 := by
  rw [List.count_eq_zero]
  intro hm
  have := decimal_digit_range _ _ hm
  omega

theorem count_dollar_specFrom (a : GoString) : ∀ (pre : Nat),
    (specFrom pre a).count 36 = a.count 36 + a.count 63 := by
  induction a with
  | nil => intro pre; simp [specFrom_nil]
  | cons c a ih =>
    intro pre
    rw [specFrom_cons, List.count_append, ih]
    by_cases h : c = 63
    · subst h
      simp [List.count_cons, count_dollar_decimal]
      omega
    · by_cases h36 : c = 36
      · subst h36
        simp [List.count_cons]
        omega
      · have h1 : ¬ (63 = c) := fun e => h e.symm
        have h2 : ¬ (36 = c) := fun e => h36 e.symm
        simp [List.count_cons, h, h36, h1, h2]

theorem groupBy_groupClauses {α : Type} (q : Query α) (field : GoString)
    (fields : List GoString) (h : q.RawSQL.Fragment = []) :
    q.GroupBy field fields
      = ({ q with groupClauses :=
            q.groupClauses ++ GroupClause.mk field :: fields.map GroupClause.mk }, []) := by
  unfold Query.GroupBy
  rw [if_neg (by simp [h])]
  by_cases hf : fields.length > 0
  · simp [hf, appendGroupClauses_eq]
  · have : fields = [] := by
      cases fields with
      | nil => rfl
      | cons a as => simp at hf
    subst this
    simp

theorem groupBy_raw {α : Type} (q : Query α) (field : GoString)
    (fields : List GoString) (h : q.RawSQL.Fragment ≠ []) :
    q.GroupBy field fields = (q, [⟨Level.Warn, bytes "Query is setup to use raw SQL"⟩]) := by
  simp [Query.GroupBy, h]

theorem groupBy_chain {α : Type} (fields : List GoString) : ∀ (q : Query α),
    q.RawSQL.Fragment = [] →
    fields.foldl (fun st g => (st.GroupBy g []).1) q
      = { q with groupClauses := q.groupClauses ++ fields.map GroupClause.mk } := by
  induction fields with
  | nil => intro q _; simp
  | cons f fs ih =>
    intro q h
    rw [List.foldl_cons, groupBy_groupClauses q f [] h]
    simp only [List.map_nil]
    rw [ih { q with groupClauses := q.groupClauses ++ [GroupClause.mk f] } h]
    simp

theorem groupBy_chain_raw {α : Type} (fields : List GoString) : ∀ (q : Query α),
    q.RawSQL.Fragment ≠ [] → fields.foldl (fun st g => (st.GroupBy g []).1) q = q := by
  induction fields with
  | nil => intro q _; rfl
  | cons f fs ih =>
    intro q h
    rw [List.foldl_cons, groupBy_raw q f [] h]
    exact ih q h

/-- C21: with the log as an explicit output, `GroupBy` and `Having` each emit exactly one
diagnostic, at warning level with the message `Query is setup to use raw SQL`, when the raw
SQL fragment of the query is non-empty, and none when it is empty. -/
theorem C21_raw_warning_logged {α : Type} (q : Query α) (field : GoString)
    (fields : List GoString) (condition : GoString) (args : List α) :
    (q.RawSQL.Fragment ≠ [] →
      (q.GroupBy field fields).2 = [⟨Level.Warn, bytes "Query is setup to use raw SQL"⟩] ∧
      (q.Having condition args).2 = [⟨Level.Warn, bytes "Query is setup to use raw SQL"⟩]) ∧
    (q.RawSQL.Fragment = [] →
      (q.GroupBy field fields).2 = [] ∧ (q.Having condition args).2 = []) := by
  constructor
  · intro h
    rw [groupBy_raw q field fields h]
    simp [Query.Having, h]
  · intro h
    rw [groupBy_groupClauses q field fields h]
    simp [Query.Having, h]

theorem C21_raw_warning_logged_witness :
    (rawQuery.RawSQL.Fragment ≠ [] ∧
      (rawQuery.GroupBy (bytes "A") [bytes "B"]).2.length = 1 ∧
      (rawQuery.Having (bytes "enemies.A=?") []).2
        = [⟨Level.Warn, bytes "Query is setup to use raw SQL"⟩]) ∧
    ((Query.empty GoValue).RawSQL.Fragment = [] ∧
      ((Query.empty GoValue).GroupBy (bytes "A") [bytes "B"]).2 = [] ∧
      ((Query.empty GoValue).Having (bytes "enemies.A=?") []).2 = []) :=
  ⟨⟨by decide,
      congrArg List.length
        ((C21_raw_warning_logged rawQuery (bytes "A") [bytes "B"] (bytes "enemies.A=?") []).1
          (by decide)).1,
      ((C21_raw_warning_logged rawQuery (bytes "A") [bytes "B"] (bytes "enemies.A=?") []).1
        (by decide)).2⟩,
    ⟨rfl,
      (C21_raw_warning_logged (Query.empty GoValue) (bytes "A") [bytes "B"]
        (bytes "enemies.A=?") []).2 rfl⟩⟩

/-- C22: for every model and column set, the statement `Create` prepares is exactly
`INSERT INTO <table> (<names>) VALUES (<symbols>) returning id` with the model's table name,
where the names are those of the writeable columns left after removing the column named
`id`, in alphabetical order, and the symbols are the same names in the same order, each with
a colon in front; `id` is in neither list. -/
theorem C22_create_statement {ε Stmt V : Type} (p : postgresql) (s : store ε Stmt V)
    (model : Model V) (cols : Columns) :
    (p.Create s model cols).calls.head? = some (StoreCall.prepareNamed
        (bytes "INSERT INTO " ++ model.TableName ++ bytes " (" ++
          Columns.String (postgresql.createColumns cols) ++ bytes ") VALUES (" ++
          Columns.SymbolizedString (postgresql.createColumns cols) ++
          bytes ") returning id")) ∧
    Columns.String (postgresql.createColumns cols)
      = join (postgresql.createColumns cols).names (bytes ", ") ∧
    Columns.SymbolizedString (postgresql.createColumns cols)
      = join ((postgresql.createColumns cols).names.map fun n => 58 :: n) (bytes ", ") ∧
    (postgresql.createColumns cols).names
      = sortStrings (((cols.filter fun c => !decide (c.Name = bytes "id")).filter
          fun c => c.Writeable).map (·.Name)) ∧
    ((postgresql.createColumns cols).names.map fun n => 58 :: n).map List.tail
      = (postgresql.createColumns cols).names ∧
    bytes "id" ∉ (postgresql.createColumns cols).names ∧
    bytes ":id" ∉ ((postgresql.createColumns cols).names.map fun n => 58 :: n) ∧
    (freshDialect.Create workingStore userModel userColumns).calls.head?
      = some (StoreCall.prepareNamed
          (bytes "INSERT INTO users (email, name) VALUES (:email, :name) returning id")) := by
  have hid : bytes "id" ∉ (postgresql.createColumns cols).names := by
    intro hmem
    obtain ⟨c, _, _, _, hne⟩ := (mem_createColumns_names cols _).1 hmem
    exact hne rfl
  refine ⟨?_, rfl, rfl, rfl, ?_, hid, ?_, by decide⟩
  · have hq : postgresql.createQuery model cols =
        bytes "INSERT INTO " ++ model.TableName ++ bytes " (" ++
          Columns.String (postgresql.createColumns cols) ++ bytes ") VALUES (" ++
          Columns.SymbolizedString (postgresql.createColumns cols) ++
          bytes ") returning id" := rfl
    rw [← hq]
    cases hp : s.PrepareNamed (postgresql.createQuery model cols) with
    | error e => rw [create_of_prepare_error p s model cols e hp]; rfl
    | ok stmt =>
      cases hg : s.Get stmt model.Value with
      | error e => rw [create_of_get_error p s model cols stmt e hp hg]; rfl
      | ok id => rw [create_of_get_ok p s model cols stmt id hp hg]; rfl
  · rw [List.map_map]
    conv_rhs => rw [← List.map_id (postgresql.createColumns cols).names]
    rfl
  · intro hmem
    rw [List.mem_map] at hmem
    obtain ⟨n, hn, he⟩ := hmem
    have h2 : bytes ":id" = 58 :: bytes "id" := by decide
    rw [h2] at he
    have : n = bytes "id" := by
      injection he
    exact hid (this ▸ hn)

/-- C23: caching does not change results. After every sequence of `TranslateSQL` calls on a
dialect created by `newPostgreSQL`, each cache entry maps its key to the cache-free scan of
that key, and the next call returns the string the scan returns, whatever came before. -/
theorem C23_cache_transparent
    (Parse : GoString → ConnectionDetails → ConnectionDetails) (deets : ConnectionDetails)
    (calls : List GoString) (s : GoString) :
    (∀ k v, ((newPostgreSQL Parse deets).afterCalls calls).translateCache k = some v →
      v = translateScan k) ∧
    (((newPostgreSQL Parse deets).afterCalls calls).TranslateSQL s).1 = translateScan s ∧
    (((newPostgreSQL Parse deets).afterCalls calls).TranslateSQL s).1
      = ((newPostgreSQL Parse deets).TranslateSQL s).1 := by
  have h := cacheSound_afterCalls calls _ (cacheSound_new Parse deets)
  refine ⟨h, translateSQL_of_cacheSound _ _ h, ?_⟩
  rw [translateSQL_of_cacheSound _ _ h, translateSQL_of_cacheSound _ _ (cacheSound_new Parse deets)]

theorem C23_cache_transparent_witness :
    ((newPostgreSQL (fun _ d => d) testDetails).afterCalls
        [bytes "a=?", bytes "b=? and c=?"]).translateCache (bytes "a=?") = some (bytes "a=$1") ∧
    bytes "a=$1" = translateScan (bytes "a=?") ∧
    (((newPostgreSQL (fun _ d => d) testDetails).afterCalls
        [bytes "a=?", bytes "b=? and c=?"]).TranslateSQL (bytes "a=?")).1
      = translateScan (bytes "a=?") :=
  ⟨by decide,
    (C23_cache_transparent (fun _ d => d) testDetails [bytes "a=?", bytes "b=? and c=?"]
      (bytes "a=?")).1 (bytes "a=?") (bytes "a=$1") (by decide),
    (C23_cache_transparent (fun _ d => d) testDetails [bytes "a=?", bytes "b=? and c=?"]
      (bytes "a=?")).2.1⟩

/-- C24: for every input string `s`, on a dialect created by `newPostgreSQL` and after any
earlier calls, the output of `TranslateSQL(s)` has no `'?'` byte and has as many `'$'` bytes
as `s` has `'$'` and `'?'` bytes together. -/
theorem C24_translate_counts
    (Parse : GoString → ConnectionDetails → ConnectionDetails) (deets : ConnectionDetails)
    (calls : List GoString) (s : GoString) :
    63 ∉ (((newPostgreSQL Parse deets).afterCalls calls).TranslateSQL s).1 ∧
    (((newPostgreSQL Parse deets).afterCalls calls).TranslateSQL s).1.count 63 = 0 ∧
    (((newPostgreSQL Parse deets).afterCalls calls).TranslateSQL s).1.count 36
      = s.count 36 + s.count 63 := by
  have h := cacheSound_afterCalls calls _ (cacheSound_new Parse deets)
  rw [translateSQL_of_cacheSound _ _ h, translateScan_eq_specFrom]
  exact ⟨List.count_eq_zero.1 (count_specFrom s 0), count_specFrom s 0,
    count_dollar_specFrom s 0⟩

/-- C25: `TranslateSQL` numbers placeholders from 1 whatever the input already holds: on a
dialect fresh from `newPostgreSQL` the first `'?'` becomes `$1` after any text without a
`'?'`, also when that text has a `$1` of its own, so `a = $1 AND b = ?` translates to
`a = $1 AND b = $1`, which uses the number 1 twice. -/
theorem C25_numbering_ignores_existing
    (Parse : GoString → ConnectionDetails → ConnectionDetails) (deets : ConnectionDetails)
    (pre post : GoString) (h : pre.count 63 = 0) :
    ((newPostgreSQL Parse deets).TranslateSQL (pre ++ 63 :: post)).1
        = pre ++ 36 :: 49 :: specFrom 1 post ∧
    (freshDialect.TranslateSQL (bytes "a = $1 AND b = ?")).1 = bytes "a = $1 AND b = $1" := by
  refine ⟨?_, by decide⟩
  have hd : decimal 1 = [49] := (Itoa_eq_decimal 1).symm.trans rfl
  rw [translateSQL_of_cacheSound _ _ (cacheSound_new Parse deets), translateScan_eq_specFrom,
    specFrom_append, specFrom_of_count_eq_zero _ _ h, specFrom_cons, h]
  simp [hd]

theorem C25_numbering_ignores_existing_witness :
    (bytes "a = $1 AND b = ").count 63 = 0 ∧
    ((newPostgreSQL (fun _ d => d) testDetails).TranslateSQL
        (bytes "a = $1 AND b = " ++ 63 :: bytes " AND c = 2")).1
      = bytes "a = $1 AND b = " ++ 36 :: 49 :: specFrom 1 (bytes " AND c = 2") :=
  ⟨by decide,
    (C25_numbering_ignores_existing (fun _ d => d) testDetails (bytes "a = $1 AND b = ")
      (bytes " AND c = 2") (by decide)).1⟩

/-- C26: a query whose raw SQL fragment is the empty string is not raw for the clause
methods: `GroupBy` and `Having` append their clauses and emit no warning, also on a query
that `RawQuery("")` was called on. -/
theorem C26_empty_fragment_not_raw {α : Type} (q : Query α) (field : GoString)
    (fields : List GoString) (condition : GoString) (args : List α)
    (h : q.RawSQL.Fragment = []) :
    q.GroupBy field fields
        = ({ q with groupClauses :=
              q.groupClauses ++ GroupClause.mk field :: fields.map GroupClause.mk }, []) ∧
    q.Having condition args
        = ({ q with havingClauses :=
              q.havingClauses ++ [HavingClause.mk condition args] }, []) ∧
    (∀ (q₀ : Query α) (a : List α),
      ((q₀.RawQuery [] a).GroupBy field fields).2 = [] ∧
      ((q₀.RawQuery [] a).GroupBy field fields).1.groupClauses
        = q₀.groupClauses ++ GroupClause.mk field :: fields.map GroupClause.mk ∧
      ((q₀.RawQuery [] a).Having condition args).2 = [] ∧
      ((q₀.RawQuery [] a).Having condition args).1.havingClauses
        = q₀.havingClauses ++ [HavingClause.mk condition args]) := by
  refine ⟨groupBy_groupClauses q field fields h, by simp [Query.Having, h], ?_⟩
  intro q₀ a
  have h₀ : (q₀.RawQuery [] a).RawSQL.Fragment = [] := rfl
  rw [groupBy_groupClauses _ field fields h₀]
  simp [Query.Having, Query.RawQuery]

theorem C26_empty_fragment_not_raw_witness :
    ((Query.empty GoValue).RawQuery [] []).RawSQL.Fragment = [] ∧
    (((Query.empty GoValue).RawQuery [] []).GroupBy (bytes "A") [bytes "B"]).2 = [] ∧
    (((Query.empty GoValue).RawQuery [] []).GroupBy (bytes "A") [bytes "B"]).1.groupClauses
      = [GroupClause.mk (bytes "A"), GroupClause.mk (bytes "B")] ∧
    (((Query.empty GoValue).RawQuery [] []).Having (bytes "enemies.A=?")
        [GoValue.str (bytes "test")]).1.havingClauses
      = [HavingClause.mk (bytes "enemies.A=?") [GoValue.str (bytes "test")]] :=
  ⟨rfl,
    congrArg Prod.snd
      (C26_empty_fragment_not_raw ((Query.empty GoValue).RawQuery [] []) (bytes "A")
        [bytes "B"] (bytes "enemies.A=?") [GoValue.str (bytes "test")] rfl).1,
    congrArg (fun r => r.1.groupClauses)
      (C26_empty_fragment_not_raw ((Query.empty GoValue).RawQuery [] []) (bytes "A")
        [bytes "B"] (bytes "enemies.A=?") [GoValue.str (bytes "test")] rfl).1,
    congrArg (fun r => r.1.havingClauses)
      (C26_empty_fragment_not_raw ((Query.empty GoValue).RawQuery [] []) (bytes "A")
        [bytes "B"] (bytes "enemies.A=?") [GoValue.str (bytes "test")] rfl).2.1⟩

/-- C27: each clause method changes only its own clause list. For every query and
arguments, the query after `GroupBy` is the one before with only `groupClauses` replaced, so
the having clauses, the raw SQL and every other field are as before; the query after `Having`
is the one before with only `havingClauses` replaced. -/
theorem C27_clause_methods_frame {α : Type} (q : Query α) (field : GoString)
    (fields : List GoString) (condition : GoString) (args : List α) :
    (q.GroupBy field fields).1
        = { q with groupClauses := (q.GroupBy field fields).1.groupClauses } ∧
    (q.GroupBy field fields).1.havingClauses = q.havingClauses ∧
    (q.GroupBy field fields).1.RawSQL = q.RawSQL ∧
    (q.Having condition args).1
        = { q with havingClauses := (q.Having condition args).1.havingClauses } ∧
    (q.Having condition args).1.groupClauses = q.groupClauses ∧
    (q.Having condition args).1.RawSQL = q.RawSQL := by
  have hg : (q.GroupBy field fields).1
      = { q with groupClauses := (q.GroupBy field fields).1.groupClauses } := by
    by_cases h : q.RawSQL.Fragment = []
    · rw [groupBy_groupClauses q field fields h]
    · rw [groupBy_raw q field fields h]
  have hh : (q.Having condition args).1
      = { q with havingClauses := (q.Having condition args).1.havingClauses } := by
    unfold Query.Having
    split <;> rfl
  refine ⟨hg, ?_, ?_, hh, ?_, ?_⟩
  · rw [hg]
  · rw [hg]
  · rw [hh]
  · rw [hh]

/-- C28: `GroupBy` accumulates: for every query and fields `f1..fn` with n at least 1, the
single call `GroupBy(f1, f2, ..., fn)` leaves the query in the same state as the chain
`GroupBy(f1).GroupBy(f2)...GroupBy(fn)`. -/
theorem C28_groupBy_accumulates {α : Type} (q : Query α) (field : GoString)
    (fields : List GoString) :
    (q.GroupBy field fields).1
        = (field :: fields).foldl (fun st g => (st.GroupBy g []).1) q ∧
    ((Query.empty GoValue).GroupBy (bytes "A") [bytes "B", bytes "C"]).1
        = ((((Query.empty GoValue).GroupBy (bytes "A") []).1.GroupBy (bytes "B") []).1.GroupBy
            (bytes "C") []).1 := by
  refine ⟨?_, by decide⟩
  by_cases h : q.RawSQL.Fragment = []
  · rw [groupBy_groupClauses q field fields h, groupBy_chain _ q h]
    simp
  · rw [groupBy_raw q field fields h, groupBy_chain_raw _ q h]

end Pop
